import Mathlib

/-!
Shallow embedding of the sculpt-mode visibility engine
(`blender::ed::sculpt_paint::hide`, file `paint_hide.cc`) and proofs about
the frozen claims on it.

Modelling conventions:
* attribute arrays (`.hide_vert`, `.hide_poly`, `.hide_edge`) are `List Bool`
  wrapped in `Option`: `none` models an absent attribute (the "everything
  visible" sentinel state);
* a PBVH node is the lists of element indices it owns;
* the parallel `threading::parallel_for` loops over disjoint nodes are
  modelled as sequential folds over the node list (the tasks own disjoint
  element ranges, so the sequential fold computes the same store);
* undo pushes and the dirty marks (`BKE_pbvh_node_mark_update_visibility`,
  `BKE_pbvh_node_mark_rebuild_draw`) are recorded as lists of node indices
  in the result structures;
* the scalar sculpt mask (`float`) is modelled with `ℚ`, keeping the
  `> 0.5` threshold comparison exact.
-/

namespace BlenderHide

/-- The visibility action enumeration (`VisAction`): exactly two values. -/
inductive VisAction where
  | Hide : VisAction
  | Show : VisAction
deriving DecidableEq, Repr

/-- `action_to_hide`: the hidden-flag value an action writes. -/
def action_to_hide (action : VisAction) : Bool :=
  action = VisAction.Hide

/-- `array_utils::gather`: read the store at a list of element indices
(out-of-range indices read the default `d`). -/
def gatherIdx (d : α) (src : List α) (idx : List Nat) : List α :=
  idx.map (fun i => src.getD i d)

/-- `array_utils::scatter`: write `vals` back at the element indices `idx`. -/
def scatterIdx (vals : List α) (idx : List Nat) (dst : List α) : List α :=
  (idx.zip vals).foldl (fun d p => d.set p.1 p.2) dst

/-- Outcome of a per-node gather/compare/scatter pass: the updated store,
the node indices for which `undo::push_node` ran, and the aggregated
`any_changed` flag. -/
structure NodeFoldResult (α : Type) where
  store : List α
  pushed : List Nat
  any_changed : Bool
deriving DecidableEq, Repr

/-- The shared per-node loop body of `vert_hide_update`,
`grid_hide_update` and `flush_face_changes_node`: for each node, gather
the node's current values, recompute them, and - only when the recomputed
values differ from the snapshot - push an undo record for the node and
scatter the new values into the store.  `k` is the index of the first
node of `ns` in the full node list. -/
def node_update_go [DecidableEq α] (d : α) (compute : List Nat → List α → List α) :
    List (List Nat) → Nat → NodeFoldResult α → NodeFoldResult α
  | [], _, acc => acc
  | n :: ns, k, acc =>
    let old := gatherIdx d acc.store n
    let newVals := compute n old
    if newVals = old then
      node_update_go d compute ns (k + 1) acc
    else
      node_update_go d compute ns (k + 1)
        ⟨scatterIdx newVals n acc.store, acc.pushed ++ [k], true⟩

/-- Run the per-node update pass over all nodes. -/
def node_update_fold [DecidableEq α] (d : α) (compute : List Nat → List α → List α)
    (nodes : List (List Nat)) (store0 : List α) : NodeFoldResult α :=
  node_update_go d compute nodes 0 ⟨store0, [], false⟩

/-! ## The polygon-mesh representation (`PBVH_FACES`) -/

/-- The polygon mesh: faces are corner-vertex lists, edges are endpoint
pairs; the three hidden-flag attributes are optional (absent = all
visible).  `sculpt_mask` is the optional per-vertex scalar mask. -/
structure Mesh where
  numVerts : Nat
  faces : List (List Nat)
  edges : List (Nat × Nat)
  hide_vert : Option (List Bool)
  hide_poly : Option (List Bool)
  hide_edge : Option (List Bool)
  sculpt_mask : Option (List ℚ)
deriving DecidableEq, Repr

/-- A PBVH node of a polygon mesh: the unique vertices it owns, the full
vertex list (`bke::pbvh::node_verts`, owned plus boundary), and the faces
its triangles belong to (`node_face_indices_calc_mesh`). -/
structure PBVHNodeMesh where
  uniqueVerts : List Nat
  verts : List Nat
  faceIndices : List Nat
deriving DecidableEq, Repr

/-- The hidden value of a vertex, reading the optional attribute with the
"absent means visible" sentinel. -/
def Mesh.vertHidden (m : Mesh) (v : Nat) : Bool :=
  (m.hide_vert.getD []).getD v false

/-- The hidden value of a face. -/
def Mesh.faceHidden (m : Mesh) (f : Nat) : Bool :=
  (m.hide_poly.getD []).getD f false

/-- The hidden value of an edge. -/
def Mesh.edgeHidden (m : Mesh) (e : Nat) : Bool :=
  (m.hide_edge.getD []).getD e false

/-- `calc_face_hide`, per face: a face is hidden when any of its corner
vertices is hidden. -/
def face_hide_from_vert (face : List Nat) (hide_vert : List Bool) : Bool :=
  face.any (fun v => hide_vert.getD v false)

/-- `flush_edge_changes` / `bke::mesh_edge_hide_from_vert`: recompute the
whole edge-hidden attribute as the OR of the endpoint-hidden flags. -/
def flush_edge_changes (edges : List (Nat × Nat)) (hide_vert : List Bool) : List Bool :=
  edges.map (fun e => hide_vert.getD e.1 false || hide_vert.getD e.2 false)

/-- `flush_face_changes_node`: for every node, recompute the node's faces'
hidden flags from the updated vertex visibility (`calc_face_hide`),
compare against the stored values, and only on a difference scatter them
back and mark the node (`BKE_pbvh_node_mark_update_visibility`); the
result's `pushed` field records the marked (dirty) nodes. -/
def flush_face_changes_node (faces : List (List Nat)) (nodes : List PBVHNodeMesh)
    (hide_vert : List Bool) (hide_poly0 : List Bool) : NodeFoldResult Bool :=
  node_update_fold false
    (fun idxs _ => idxs.map (fun f => face_hide_from_vert (faces.getD f []) hide_vert))
    (nodes.map (·.faceIndices)) hide_poly0

/-- Result of a vertex-driven mesh update: the new mesh, the nodes pushed
to the undo log (`undo::Type::HideVert`), and the nodes marked dirty. -/
structure VertHideResult where
  mesh : Mesh
  pushed : List Nat
  dirty : List Nat
deriving DecidableEq, Repr

/-- The materialised `.hide_vert` write span: the existing attribute, or a
freshly added all-`false` array (`lookup_or_add_for_write_span`). -/
def Mesh.hideVertSpan (m : Mesh) : List Bool :=
  m.hide_vert.getD (List.replicate m.numVerts false)

/-- The materialised `.hide_poly` span. -/
def Mesh.hidePolySpan (m : Mesh) : List Bool :=
  m.hide_poly.getD (List.replicate m.faces.length false)

/-- `vert_hide_update`: per node, gather the node's unique vertices'
hidden flags, let `calc_hide` recompute them, and on an actual difference
push the node to the undo log and scatter the new values; afterwards, only
when anything changed, flush face changes per node and recompute all edge
flags. -/
def vert_hide_update (m : Mesh) (nodes : List PBVHNodeMesh)
    (calc_hide : List Nat → List Bool → List Bool) : VertHideResult :=
  let r := node_update_fold false calc_hide (nodes.map (·.uniqueVerts)) m.hideVertSpan
  if r.any_changed then
    let f := flush_face_changes_node m.faces nodes r.store m.hidePolySpan
    { mesh := { m with
        hide_vert := some r.store, hide_poly := some f.store,
        hide_edge := some (flush_edge_changes m.edges r.store) },
      pushed := r.pushed, dirty := f.pushed }
  else
    { mesh := { m with hide_vert := some r.store }, pushed := r.pushed, dirty := [] }

/-- `node_visible_verts`: empty for a fully hidden node; the whole
unique-vertex list when the `hide_vert` span is empty; otherwise the
unique vertices whose `hide_vert` entry is false, in order. -/
def node_visible_verts (fullyHidden : Bool) (uniqueVerts : List Nat)
    (hide_vert : List Bool) : List Nat :=
  if fullyHidden then []
  else if hide_vert.isEmpty then uniqueVerts
  else uniqueVerts.filter (fun vert => !hide_vert.getD vert false)

/-- Modelled from the spec: `bke::mesh_hide_vert_flush` (its code is not
among the analysed sources).  Per the flush-engine contract it recomputes
the derived face and edge hidden attributes from the vertex attribute
with the OR rules; with the vertex attribute absent everything is
visible, which the attribute store represents by the sentinel "attribute
removed". -/
def mesh_hide_vert_flush (m : Mesh) : Mesh :=
  match m.hide_vert with
  | none => { m with hide_poly := none, hide_edge := none }
  | some hv =>
    { m with
      hide_poly := some (m.faces.map (fun face => face_hide_from_vert face hv)),
      hide_edge := some (flush_edge_changes m.edges hv) }

/-- The face indices of the faces a vertex belongs to. -/
def vert_incident_faces (faces : List (List Nat)) (v : Nat) : List Nat :=
  (faces.enum.filter (fun p => p.2.contains v)).map Prod.fst

/-- Whether `e` is an edge of the face's corner loop (a cyclically
consecutive corner-vertex pair, in either direction). -/
def edge_in_face (face : List Nat) (e : Nat × Nat) : Bool :=
  (List.range face.length).any (fun j =>
    let a := face.getD j 0
    let b := face.getD ((j + 1) % face.length) 0
    (a = e.1 && b = e.2) || (a = e.2 && b = e.1))

/-- The face indices of the faces an edge belongs to. -/
def edge_incident_faces (faces : List (List Nat)) (e : Nat × Nat) : List Nat :=
  (faces.enum.filter (fun p => edge_in_face p.2 e)).map Prod.fst

/-- Modelled from the spec: `bke::mesh_hide_face_flush` (its code is not
among the analysed sources).  The face-driven reverse flush used by the
invert operation: following the spec's "flush faces down to vertices" and
the in-source BMesh analogue (`sync_all_from_faces`: hide every vertex
and edge attached to a face, then unhide those attached to a visible
face), a vertex or edge attached to at least one face becomes hidden
exactly when all its faces are hidden; unattached elements keep their
previous flags. -/
def mesh_hide_face_flush (m : Mesh) : Mesh :=
  let hp := m.hidePolySpan
  let hv0 := m.hideVertSpan
  let he0 := (m.hide_edge.getD (List.replicate m.edges.length false))
  let hv := (List.range m.numVerts).map (fun v =>
    let inc := vert_incident_faces m.faces v
    if inc.isEmpty then hv0.getD v false else inc.all (fun f => hp.getD f false))
  let he := m.edges.enum.map (fun p =>
    let inc := edge_incident_faces m.faces p.2
    if inc.isEmpty then he0.getD p.1 false else inc.all (fun f => hp.getD f false))
  { m with hide_vert := some hv, hide_edge := some he }

/-- Result of a bulk show-all pass: the new mesh, the nodes pushed to the
undo log, and the nodes marked for redraw (`mark_rebuild_draw`). -/
structure ShowAllResult where
  mesh : Mesh
  pushed : List Nat
  dirty : List Nat
deriving DecidableEq, Repr

/-- `mesh_show_all`: when the `.hide_vert` attribute exists, push an undo
record and a redraw mark for every node containing a hidden vertex
(`bke::pbvh::node_verts`, the full vertex list); reset every node's
fully-hidden cache, remove the `.hide_vert` attribute entirely and
re-flush the derived attributes. -/
def mesh_show_all (m : Mesh) (nodes : List PBVHNodeMesh) : ShowAllResult :=
  let touched :=
    match m.hide_vert with
    | none => []
    | some hv =>
      (nodes.enum.filter (fun p => p.2.verts.any (fun v => hv.getD v false))).map Prod.fst
  { mesh := mesh_hide_vert_flush { m with hide_vert := none },
    pushed := touched, dirty := touched }

/-- `partialvis_all_update_mesh`: show-all or hide-all on a polygon mesh.
With the `Show` action and no `.hide_vert` attribute it returns without
doing anything. -/
def partialvis_all_update_mesh (m : Mesh) (action : VisAction)
    (nodes : List PBVHNodeMesh) : VertHideResult :=
  if action = VisAction.Show ∧ m.hide_vert = none then ⟨m, [], []⟩
  else
    match action with
    | VisAction.Hide =>
      vert_hide_update m nodes (fun _ hide => hide.map (fun _ => true))
    | VisAction.Show =>
      let r := mesh_show_all m nodes
      ⟨r.mesh, r.pushed, r.dirty⟩

/-- The per-node recompute of the masked update: set the hidden flag to
`value` exactly for the vertices whose mask value exceeds 0.5. -/
def masked_calc_hide (mask : List ℚ) (value : Bool)
    (verts : List Nat) (hide : List Bool) : List Bool :=
  List.zipWith (fun v h => if mask.getD v 0 > 1 / 2 then value else h) verts hide

/-- `partialvis_masked_update_mesh`: with `Show` and no `.hide_vert`
attribute, do nothing; with `Show` and no mask attribute, degenerate to
`mesh_show_all`; with a mask attribute, run the predicate-driven vertex
update with the 0.5 threshold. -/
def partialvis_masked_update_mesh (m : Mesh) (action : VisAction)
    (nodes : List PBVHNodeMesh) : VertHideResult :=
  if action = VisAction.Show ∧ m.hide_vert = none then ⟨m, [], []⟩
  else
    let value := action_to_hide action
    match m.sculpt_mask with
    | none =>
      if action = VisAction.Show then
        let r := mesh_show_all m nodes
        ⟨r.mesh, r.pushed, r.dirty⟩
      else ⟨m, [], []⟩
    | some mask => vert_hide_update m nodes (masked_calc_hide mask value)

/-- `invert_visibility_mesh`: push a `HideFace` undo record and a dirty
mark for every node, toggle the node's faces' hidden flags in place, and
afterwards flush the toggled face attribute down with
`mesh_hide_face_flush`. -/
def invert_visibility_mesh (m : Mesh) (nodes : List PBVHNodeMesh) : VertHideResult :=
  let hp := nodes.foldl
    (fun hp node => node.faceIndices.foldl
      (fun hp f => hp.set f (!(hp.getD f false))) hp)
    m.hidePolySpan
  { mesh := mesh_hide_face_flush { m with hide_poly := some hp },
    pushed := List.range nodes.length,
    dirty := List.range nodes.length }

/-! ## The subdivision-grid representation (`PBVH_GRIDS`) -/

/-- The multiresolution grid state: `grid_hidden` is the optional
bit-per-sample hidden structure (`none` models the freed / never
allocated structure, meaning everything visible); `masks` is the optional
CCG mask channel (`key.has_mask` is its presence). -/
structure Grids where
  numGrids : Nat
  gridSize : Nat
  grid_hidden : Option (List (List Bool))
  masks : Option (List (List ℚ))
deriving DecidableEq, Repr

/-- One all-visible grid's bit mask. -/
def Grids.emptyGrid (g : Grids) : List Bool :=
  List.replicate (g.gridSize * g.gridSize) false

/-- `BKE_subdiv_ccg_grid_hidden_ensure`: the existing bit structure, or a
freshly allocated all-`false` one. -/
def Grids.gridHiddenEnsure (g : Grids) : List (List Bool) :=
  g.grid_hidden.getD (List.replicate g.numGrids g.emptyGrid)

/-- The hidden value of sample `idx` of grid `i`. -/
def Grids.sampleHidden (g : Grids) (i idx : Nat) : Bool :=
  ((g.grid_hidden.getD []).getD i []).getD idx false

/-- Result of a grid-visibility pass: the new grid state, the nodes
pushed to the undo log, the nodes marked dirty, and whether
`multires_mark_as_modified` and `BKE_pbvh_sync_visibility_from_verts`
ran. -/
structure GridsResult where
  grids : Grids
  pushed : List Nat
  dirty : List Nat
  multires_tagged : Bool
  synced_from_verts : Bool
deriving DecidableEq, Repr

/-- `grids_show_all`: when the bit structure exists, push an undo record
and a redraw mark for every node one of whose grids has any bit set; when
any such node existed, reset the fully-hidden caches, free the bit
structure entirely, resync coarse vertices and tag multires; otherwise
return without further work. -/
def grids_show_all (g : Grids) (nodes : List (List Nat)) : GridsResult :=
  match g.grid_hidden with
  | none => ⟨g, [], [], false, false⟩
  | some gh =>
    let touched :=
      (nodes.enum.filter (fun p => p.2.any (fun i => (gh.getD i []).any (fun b => b)))).map Prod.fst
    if touched.isEmpty then ⟨g, [], [], false, false⟩
    else ⟨{ g with grid_hidden := none }, touched, touched, true, true⟩

/-- `grid_hide_update`: ensure the bit structure, then per node copy the
node's grids, let `calc_hide` recompute each, and only when some grid's
bits differ push the node to the undo log, write the new bits back and
mark the node dirty; when anything changed, tag multires and resync the
coarse vertices. -/
def grid_hide_update (g : Grids) (nodes : List (List Nat))
    (calc_hide : Nat → List Bool → List Bool) : GridsResult :=
  let r := node_update_fold g.emptyGrid
    (fun idxs olds => List.zipWith calc_hide idxs olds) nodes g.gridHiddenEnsure
  ⟨{ g with grid_hidden := some r.store }, r.pushed, r.pushed,
    r.any_changed, r.any_changed⟩

/-- `partialvis_all_update_grids`: hide-all fills every node grid's bits
with `true` through `grid_hide_update`; show-all is `grids_show_all`. -/
def partialvis_all_update_grids (g : Grids) (action : VisAction)
    (nodes : List (List Nat)) : GridsResult :=
  match action with
  | VisAction.Hide => grid_hide_update g nodes (fun _ hide => hide.map (fun _ => true))
  | VisAction.Show => grids_show_all g nodes

/-- The masked per-grid recompute: set the bit at each sample whose mask
value exceeds 0.5 to `value`. -/
def masked_grid_calc (masks : List (List ℚ)) (gridSize : Nat) (value : Bool)
    (grid_index : Nat) (hide : List Bool) : List Bool :=
  (List.range (gridSize * gridSize)).foldl
    (fun h idx =>
      if (masks.getD grid_index []).getD idx 0 > 1 / 2 then h.set idx value else h)
    hide

/-- `partialvis_masked_update_grids`: without a mask channel fill every
node grid's bits with the action's value; with one, run the 0.5-threshold
recompute per grid. -/
def partialvis_masked_update_grids (g : Grids) (action : VisAction)
    (nodes : List (List Nat)) : GridsResult :=
  let value := action_to_hide action
  match g.masks with
  | none => grid_hide_update g nodes (fun _ hide => hide.map (fun _ => value))
  | some masks => grid_hide_update g nodes (masked_grid_calc masks g.gridSize value)

/-- A grid sample coordinate (`SubdivCCGCoord`). -/
structure SubdivCCGCoord where
  grid_index : Nat
  x : Nat
  y : Nat
deriving DecidableEq, Repr

/-- The write phase of one grid sample during grow/shrink: when the
sample reads the desired state, set every topological neighbour's bit
(`BKE_subdiv_ccg_neighbor_coords_get`, possibly in another grid) to the
desired state in the write buffer.  `CCG_grid_xy_to_index` is
`y * grid_size + x`. -/
def grid_write_neighbors (size : Nat) (desired : Bool)
    (neighbors : SubdivCCGCoord → List SubdivCCGCoord)
    (read : List (List Bool)) (grid_index : Nat)
    (wb : List (List Bool)) : List (List Bool) :=
  (List.range size).foldl (fun wb y =>
    (List.range size).foldl (fun wb x =>
      if (read.getD grid_index []).getD (y * size + x) false ≠ desired then wb
      else
        (neighbors ⟨grid_index, x, y⟩).foldl (fun wb n =>
          wb.set n.grid_index
            ((wb.getD n.grid_index []).set (n.y * size + n.x) desired)) wb)
      wb) wb

/-- The grid double buffer (`DualBitBuffer`), selected by iteration
parity. -/
structure DualBitBuffer where
  front : List (List Bool)
  back : List (List Bool)
deriving DecidableEq, Repr

/-- The buffer written during iteration `count`. -/
def DualBitBuffer.write_buffer (b : DualBitBuffer) (count : Nat) : List (List Bool) :=
  if count % 2 = 0 then b.back else b.front

/-- The buffer read during iteration `count`. -/
def DualBitBuffer.read_buffer (b : DualBitBuffer) (count : Nat) : List (List Bool) :=
  if count % 2 = 0 then b.front else b.back

/-- `grow_shrink_visibility_grid`: double-buffered neighbour propagation
of the desired state.  Mirrors the source faithfully: inside the
iteration loop `node_changed[node_index] = true` runs for every node of
the gathered set unconditionally, so after any iteration every node is
pushed to the undo log and marked dirty; `multires_mark_as_modified` and
the coarse-vertex resync run unconditionally at the end. -/
def grow_shrink_grid_step (g : Grids)
    (neighbors : SubdivCCGCoord → List SubdivCCGCoord)
    (nodes : List (List Nat)) (desired : Bool)
    (st : DualBitBuffer × List Bool) (i : Nat) : DualBitBuffer × List Bool :=
  let bufs := st.1
  let read := bufs.read_buffer i
  let start := bufs.write_buffer i
  let written := nodes.enum.foldl
    (fun (acc : List (List Bool) × List Bool) p =>
      (p.2.foldl
        (fun wb gi => grid_write_neighbors g.gridSize desired neighbors read gi wb)
        acc.1,
       acc.2.set p.1 true))
    (start, st.2)
  (if i % 2 = 0 then { bufs with back := written.1 } else { bufs with front := written.1 },
   written.2)

def grow_shrink_visibility_grid (g : Grids)
    (neighbors : SubdivCCGCoord → List SubdivCCGCoord)
    (nodes : List (List Nat)) (action : VisAction) (iterations : Nat) : GridsResult :=
  let gh := g.gridHiddenEnsure
  let desired := action_to_hide action
  let run := (List.range iterations).foldl (grow_shrink_grid_step g neighbors nodes desired)
    (⟨gh, gh⟩, List.replicate nodes.length false)
  let pushed := (List.range nodes.length).filter (fun i => run.2.getD i false)
  let last := match iterations with
    | 0 => run.1.front
    | n + 1 => run.1.write_buffer n
  ⟨{ g with grid_hidden := some last }, pushed, pushed, true, true⟩

/-! ## The dynamic-topology representation (`PBVH_BMESH`) -/

/-- A dynamic-topology node: its owned (unique) vertices, the boundary
vertices used by its faces but owned elsewhere
(`BKE_pbvh_bmesh_node_other_verts`), and its faces' indices. -/
structure BMeshNode where
  uniqueVerts : List Nat
  otherVerts : List Nat
  faceIndices : List Nat
deriving DecidableEq, Repr

/-- The mutable per-element hidden flags of the dynamic-topology mesh
(`BM_ELEM_HIDDEN` on vertices and faces). -/
structure BMeshState where
  vertHidden : List Bool
  faceHidden : List Bool
deriving DecidableEq, Repr

/-- Modelled from the spec: `paint_is_bmesh_face_hidden` (its code is not
among the analysed sources).  Per the data model a dynamic-topology face's
hidden status is derived from its adjacent elements: it is hidden exactly
when some adjacent vertex is hidden. -/
def paint_is_bmesh_face_hidden (face : List Nat) (vertHidden : List Bool) : Bool :=
  face.any (fun v => vertHidden.getD v false)

/-- The state threaded through one node's vertex passes:
the flags plus the node-local `any_changed` / `any_visible` flags. -/
structure BMVertPass where
  vertHidden : List Bool
  any_changed : Bool
  any_visible : Bool
deriving DecidableEq, Repr

/-- The loop body of `partialvis_update_bmesh_verts` for one vertex:
when the predicate matches, write the action's flag value and raise
`any_changed` (even when the flag already held that value); afterwards
raise `any_visible` when the vertex ends up visible. -/
def bmesh_vert_step (action : VisAction) (should_update : Nat → Bool)
    (acc : BMVertPass) (v : Nat) : BMVertPass :=
  let acc :=
    if should_update v then
      { acc with
        vertHidden := acc.vertHidden.set v (action_to_hide action),
        any_changed := true }
    else acc
  { acc with any_visible := acc.any_visible || !(acc.vertHidden.getD v false) }

/-- `partialvis_update_bmesh_verts`: run the predicate over every vertex
of the set. -/
def partialvis_update_bmesh_verts (verts : List Nat) (action : VisAction)
    (should_update : Nat → Bool) (st : BMVertPass) : BMVertPass :=
  verts.foldl (bmesh_vert_step action should_update) st

/-- `partialvis_update_bmesh_faces`: re-derive the hidden flag of each of
the node's faces from the current vertex flags. -/
def partialvis_update_bmesh_faces (faces : List (List Nat)) (faceIndices : List Nat)
    (vertHidden : List Bool) (faceHidden : List Bool) : List Bool :=
  faceIndices.foldl
    (fun fh f => fh.set f (paint_is_bmesh_face_hidden (faces.getD f []) vertHidden))
    faceHidden

/-- Result of the dynamic-topology predicate update: the flags, the nodes
pushed to the undo log, the nodes marked for redraw, and the recorded
`BKE_pbvh_node_fully_hidden_set` calls. -/
structure BMeshResult where
  state : BMeshState
  pushed : List Nat
  dirty : List Nat
  fullyHiddenSet : List (Nat × Bool)
deriving DecidableEq, Repr

/-- `partialvis_update_bmesh_nodes`: for every node, push an undo record
(unconditionally, before the passes), run the predicate over the unique
then the boundary vertices, re-derive the node's faces' flags, and - when
`any_changed` - mark the node for redraw and store its fully-hidden
cache. -/
def bmesh_node_step (faces : List (List Nat)) (action : VisAction)
    (vert_test : Nat → Bool) (acc : BMeshResult) (p : Nat × BMeshNode) : BMeshResult :=
  let pass := partialvis_update_bmesh_verts p.2.uniqueVerts action vert_test
    ⟨acc.state.vertHidden, false, false⟩
  let pass := partialvis_update_bmesh_verts p.2.otherVerts action vert_test pass
  let fh := partialvis_update_bmesh_faces faces p.2.faceIndices
    pass.vertHidden acc.state.faceHidden
  { state := ⟨pass.vertHidden, fh⟩,
    pushed := acc.pushed ++ [p.1],
    dirty := if pass.any_changed then acc.dirty ++ [p.1] else acc.dirty,
    fullyHiddenSet :=
      if pass.any_changed then acc.fullyHiddenSet ++ [(p.1, !pass.any_visible)]
      else acc.fullyHiddenSet }

def partialvis_update_bmesh_nodes (faces : List (List Nat)) (st : BMeshState)
    (nodes : List BMeshNode) (action : VisAction)
    (vert_test : Nat → Bool) : BMeshResult :=
  nodes.enum.foldl (bmesh_node_step faces action vert_test) ⟨st, [], [], []⟩

/-- `partialvis_all_update_bmesh`: the predicate update with the
always-true predicate. -/
def partialvis_all_update_bmesh (faces : List (List Nat)) (st : BMeshState)
    (nodes : List BMeshNode) (action : VisAction) : BMeshResult :=
  partialvis_update_bmesh_nodes faces st nodes action (fun _ => true)

/-- `partialvis_masked_update_bmesh`: the predicate update testing each
vertex's sculpt-mask value against the 0.5 threshold. -/
def partialvis_masked_update_bmesh (faces : List (List Nat)) (st : BMeshState)
    (nodes : List BMeshNode) (action : VisAction) (mask : List ℚ) : BMeshResult :=
  partialvis_update_bmesh_nodes faces st nodes action
    (fun v => mask.getD v 0 > 1 / 2)

/-! ## Polygon-mesh grow/shrink (`PAINT_OT_visibility_filter`) -/

/-- `bke::mesh::face_corner_prev` as a position within the face's corner
list: the previous corner, wrapping at the face start. -/
def face_corner_prev (face : List Nat) (j : Nat) : Nat :=
  (j + face.length - 1) % face.length

/-- `bke::mesh::face_corner_next`: the next corner, wrapping at the face
end. -/
def face_corner_next (face : List Nat) (j : Nat) : Nat :=
  (j + 1) % face.length

/-- `affect_visibility_mesh`: for every corner of the face whose vertex
reads the target value in the read buffer, write the target value to the
corner-loop predecessor and successor corner vertices in the write
buffer. -/
def affect_visibility_mesh (value : Bool) (face : List Nat)
    (read_buffer : List Bool) (write_buffer : List Bool) : List Bool :=
  (List.range face.length).foldl
    (fun wb j =>
      if read_buffer.getD (face.getD j 0) false ≠ value then wb
      else
        let prev_vert := face.getD (face_corner_prev face j) 0
        let next_vert := face.getD (face_corner_next face j) 0
        (wb.set prev_vert value).set next_vert value)
    write_buffer

/-- `flush_face_changes` / `bke::mesh_face_hide_from_vert`: recompute the
whole face-hidden attribute with the OR-of-corner-vertices rule. -/
def flush_face_changes (faces : List (List Nat)) (hide_vert : List Bool) : List Bool :=
  faces.map (fun face => face_hide_from_vert face hide_vert)

/-- The vertex double buffer (`DualBuffer`), selected by iteration
parity. -/
structure DualBuffer where
  front : List Bool
  back : List Bool
deriving DecidableEq, Repr

/-- The buffer written during iteration `count`. -/
def DualBuffer.write_buffer (b : DualBuffer) (count : Nat) : List Bool :=
  if count % 2 = 0 then b.back else b.front

/-- The buffer read during iteration `count`. -/
def DualBuffer.read_buffer (b : DualBuffer) (count : Nat) : List Bool :=
  if count % 2 = 0 then b.front else b.back

/-- The face loop of one propagation iteration: every face whose current
hidden flag is `true` is processed with `affect_visibility_mesh` (for
both actions - the source skips exactly the faces with
`!hide_poly[face_index]`). -/
def propagate_iteration (faces : List (List Nat)) (hide_poly : List Bool)
    (action : VisAction) (read_buffer write_buffer : List Bool) : List Bool :=
  faces.enum.foldl
    (fun wb p =>
      if hide_poly.getD p.1 false then
        affect_visibility_mesh (action_to_hide action) p.2 read_buffer wb
      else wb)
    write_buffer

/-- Follows the spec's words for claim C4, for comparison with
`propagate_iteration`: process exactly the faces whose current hidden
flag equals the target action's hide value (hidden faces for `Hide`,
visible faces for `Show`). -/
def propagate_iteration_specFilter (faces : List (List Nat)) (hide_poly : List Bool)
    (action : VisAction) (read_buffer write_buffer : List Bool) : List Bool :=
  faces.enum.foldl
    (fun wb p =>
      if hide_poly.getD p.1 false = action_to_hide action then
        affect_visibility_mesh (action_to_hide action) p.2 read_buffer wb
      else wb)
    write_buffer

/-- Whether processing `face` with `affect_visibility_mesh` writes
`value` at vertex `v`: some corner of the face reads the target value and
`v` is that corner's corner-loop predecessor or successor vertex. -/
def corner_spreads (value : Bool) (face : List Nat) (read_buffer : List Bool)
    (v : Nat) : Bool :=
  (List.range face.length).any (fun j =>
    (read_buffer.getD (face.getD j 0) false == value) &&
    (v == face.getD (face_corner_prev face j) 0
      || v == face.getD (face_corner_next face j) 0))

/-- Whether one face loop of `propagate_iteration` writes `value` at
vertex `v`: some face whose current hidden flag is `true` spreads the
value to `v`. -/
def iteration_affects (faces : List (List Nat)) (hide_poly : List Bool)
    (value : Bool) (read_buffer : List Bool) (v : Nat) : Bool :=
  faces.enum.any (fun p =>
    hide_poly.getD p.1 false && corner_spreads value p.2 read_buffer v)

/-- `propagate_vertex_visibility`: run `iterations` face loops, each
followed by the global face flush (`flush_face_changes`), alternating the
double buffer by parity. -/
def propagate_vertex_visibility (faces : List (List Nat)) (buffers : DualBuffer)
    (hide_poly : List Bool) (action : VisAction)
    (iterations : Nat) : DualBuffer × List Bool :=
  (List.range iterations).foldl
    (fun (st : DualBuffer × List Bool) i =>
      let bufs := st.1
      let wb := propagate_iteration faces st.2 action
        (bufs.read_buffer i) (bufs.write_buffer i)
      (if i % 2 = 0 then { bufs with back := wb } else { bufs with front := wb },
       flush_face_changes faces wb))
    (buffers, hide_poly)

/-- `update_undo_state`: push an undo record for each node one of whose
unique vertices' hidden flags differ between the old and new buffers. -/
def update_undo_state (nodes : List PBVHNodeMesh)
    (old_hide_vert new_hide_vert : List Bool) : List Nat :=
  (nodes.enum.filter (fun p =>
    p.2.uniqueVerts.any (fun v =>
      old_hide_vert.getD v false != new_hide_vert.getD v false))).map Prod.fst

/-- `update_node_visibility_from_face_changes`: mark dirty each node one
of whose faces' hidden flags differ between the pre-loop and post-loop
face attributes. -/
def update_node_visibility_from_face_changes (nodes : List PBVHNodeMesh)
    (orig_hide_poly new_hide_poly : List Bool) : List Nat :=
  (nodes.enum.filter (fun p =>
    p.2.faceIndices.any (fun f =>
      orig_hide_poly.getD f false != new_hide_poly.getD f false))).map Prod.fst

/-- `grow_shrink_visibility_mesh`: with no `.hide_vert` attribute return
immediately; otherwise copy the vertex attribute into both halves of the
double buffer, run the propagation, then push undo records for the nodes
whose vertices changed, flush edges from the final buffer, mark dirty the
nodes whose faces changed, and store the final buffer as the vertex
attribute. -/
def grow_shrink_visibility_mesh (m : Mesh) (nodes : List PBVHNodeMesh)
    (action : VisAction) (iterations : Nat) : VertHideResult :=
  match m.hide_vert with
  | none => ⟨m, [], []⟩
  | some hv =>
    let hp := m.hidePolySpan
    let run := propagate_vertex_visibility m.faces ⟨hv, hv⟩ hp action iterations
    let last := match iterations with
      | 0 => run.1.front
      | n + 1 => run.1.write_buffer n
    let pushed := update_undo_state nodes hv last
    let he := flush_edge_changes m.edges last
    let dirty := update_node_visibility_from_face_changes nodes hp run.2
    { mesh := { m with
        hide_vert := some last,
        hide_poly := if iterations = 0 then m.hide_poly else some run.2,
        hide_edge := some he },
      pushed := pushed, dirty := dirty }

/-- Whether the recompute changes the node's values relative to `store`. -/
def nodeComputeChanged (d : α) (compute : List Nat → List α → List α)
    (store : List α) (n : List Nat) : Prop :=
  compute n (gatherIdx d store n) ≠ gatherIdx d store n

instance (d : α) [DecidableEq α] (compute : List Nat → List α → List α)
    (store : List α) (n : List Nat) :
    Decidable (nodeComputeChanged d compute store n) := by
  unfold nodeComputeChanged
  infer_instance

/-- The node indices (counted from `k`) whose recompute differs from the
snapshot taken from `store`. -/
def pushedSpec [DecidableEq α] (d : α) (compute : List Nat → List α → List α)
    (store : List α) : List (List Nat) → Nat → List Nat
  | [], _ => []
  | n :: ns, k =>
    if compute n (gatherIdx d store n) = gatherIdx d store n then
      pushedSpec d compute store ns (k + 1)
    else
      k :: pushedSpec d compute store ns (k + 1)

/-! ## Well-formedness predicates (the inputs the tree contract provides)

The spec's node contract: a node owns a disjoint subset of the mesh
elements, within bounds, and the gathered node set covers the object. -/

/-- Attribute arrays, when present, have the length of their domain. -/
def Mesh.WF (m : Mesh) : Prop :=
  (∀ l ∈ m.hide_vert, l.length = m.numVerts) ∧
  (∀ l ∈ m.hide_poly, l.length = m.faces.length) ∧
  (∀ l ∈ m.hide_edge, l.length = m.edges.length)

instance (m : Mesh) : Decidable m.WF := by
  unfold Mesh.WF
  infer_instance

/-- The node set owns duplicate-free, pairwise disjoint, in-bounds
vertex and face subsets. -/
def nodesWFMesh (m : Mesh) (nodes : List PBVHNodeMesh) : Prop :=
  (∀ n ∈ nodes, n.uniqueVerts.Nodup) ∧
  (∀ n ∈ nodes, ∀ v ∈ n.uniqueVerts, v < m.numVerts) ∧
  (nodes.map (·.uniqueVerts)).Pairwise (fun a b => ∀ x ∈ a, x ∉ b) ∧
  (∀ n ∈ nodes, n.faceIndices.Nodup) ∧
  (∀ n ∈ nodes, ∀ f ∈ n.faceIndices, f < m.faces.length) ∧
  (nodes.map (·.faceIndices)).Pairwise (fun a b => ∀ x ∈ a, x ∉ b)

instance (m : Mesh) (nodes : List PBVHNodeMesh) : Decidable (nodesWFMesh m nodes) := by
  unfold nodesWFMesh
  infer_instance

/-- Every face belongs to some node of the gathered set. -/
def nodesCoverFaces (m : Mesh) (nodes : List PBVHNodeMesh) : Prop :=
  ∀ f < m.faces.length, ∃ n ∈ nodes, f ∈ n.faceIndices

instance (m : Mesh) (nodes : List PBVHNodeMesh) : Decidable (nodesCoverFaces m nodes) := by
  unfold nodesCoverFaces
  infer_instance

/-! ## Concrete fixtures used by witnesses and counterexamples -/

/-- A single triangle with vertex 0 hidden and, consistently, its face
and the two edges at vertex 0 hidden. -/
def triMesh : Mesh :=
  { numVerts := 3, faces := [[0, 1, 2]], edges := [(0, 1), (1, 2), (2, 0)],
    hide_vert := some [true, false, false], hide_poly := some [true],
    hide_edge := some [true, false, true], sculpt_mask := none }

/-- The single node owning the triangle. -/
def triNode : PBVHNodeMesh := ⟨[0, 1, 2], [0, 1, 2], [0]⟩

/-- A big triangle subdivided into four faces: corner faces 0-2 hidden
(each via its hidden corner vertex 0, 1 or 2), central face 3 visible;
all attributes satisfy the OR-consistency invariant. -/
def triforceMesh : Mesh :=
  { numVerts := 6,
    faces := [[0, 3, 5], [3, 1, 4], [5, 4, 2], [3, 4, 5]],
    edges := [(0, 3), (3, 1), (1, 4), (4, 2), (2, 5), (5, 0), (3, 4), (4, 5), (5, 3)],
    hide_vert := some [true, true, true, false, false, false],
    hide_poly := some [true, true, true, false],
    hide_edge := some [true, true, true, true, true, true, false, false, false],
    sculpt_mask := none }

/-- The single node owning the subdivided triangle. -/
def triforceNode : PBVHNodeMesh := ⟨[0, 1, 2, 3, 4, 5], [0, 1, 2, 3, 4, 5], [0, 1, 2, 3]⟩

/-- A one-grid 2x2 grid object with every sample visible. -/
def smallGrids : Grids :=
  { numGrids := 1, gridSize := 2,
    grid_hidden := some [[false, false, false, false]], masks := none }

/-- A one-grid 2x2 grid object with one sample hidden. -/
def smallGridsHidden : Grids :=
  { numGrids := 1, gridSize := 2,
    grid_hidden := some [[true, false, false, false]], masks := none }

/-- A two-vertex dynamic-topology state with vertex 0 hidden. -/
def bmeshTwoState : BMeshState := ⟨[true, false], []⟩

/-- The node owning both vertices of `bmeshTwoState`. -/
def bmeshTwoNode : BMeshNode := ⟨[0, 1], [], []⟩

/-! ## Basic list lemmas -/

theorem getD_set_self (l : List α) (i : Nat) (a d : α) (h : i < l.length) :
    (l.set i a).getD i d = a := by
  rw [List.getD_eq_getElem?_getD, List.getElem?_set_self h]
  rfl

theorem getD_set_ne (l : List α) {i j : Nat} (a d : α) (h : i ≠ j) :
    (l.set i a).getD j d = l.getD j d := by
  rw [List.getD_eq_getElem?_getD, List.getElem?_set_ne h, ← List.getD_eq_getElem?_getD]

theorem getD_set_or (l : List α) (i j : Nat) (a d : α) :
    (l.set i a).getD j d = a ∨ (l.set i a).getD j d = l.getD j d := by
  by_cases hij : i = j
  · subst hij
    by_cases h : i < l.length
    · exact Or.inl (getD_set_self l i a d h)
    · right
      rw [List.set_eq_of_length_le (Nat.le_of_not_lt h)]
  · exact Or.inr (getD_set_ne l a d hij)

theorem getD_replicate_false (n i : Nat) :
    (List.replicate n false).getD i false = false := by
  induction n generalizing i with
  | zero => rfl
  | succ m ih =>
    cases i with
    | zero => rfl
    | succ j => exact ih j

theorem set_getD_self (l : List α) (i : Nat) (d : α) (h : l.getD i d = a) :
    l.set i a = l := by
  by_cases hi : i < l.length
  · apply List.ext_getElem
    · simp
    · intro n h1 h2
      rw [List.getElem_set]
      split
      · rename_i heq
        subst heq
        subst h
        rw [List.getD_eq_getElem?_getD, List.getElem?_eq_getElem hi]
        rfl
      · rfl
  · exact List.set_eq_of_length_le (Nat.le_of_not_lt hi)

/-! ## Scatter/gather lemmas -/

theorem scatterIdx_nil (vals : List α) (dst : List α) :
    scatterIdx vals [] dst = dst := rfl

theorem scatterIdx_nil_vals (idx : List Nat) (dst : List α) :
    scatterIdx [] idx dst = dst := by
  cases idx <;> rfl

theorem scatterIdx_cons (v : α) (vs : List α) (i : Nat) (is : List Nat) (dst : List α) :
    scatterIdx (v :: vs) (i :: is) dst = scatterIdx vs is (dst.set i v) := rfl

theorem length_scatterIdx (vals : List α) (idx : List Nat) (dst : List α) :
    (scatterIdx vals idx dst).length = dst.length := by
  induction idx generalizing vals dst with
  | nil => rfl
  | cons i is ih =>
    cases vals with
    | nil => rw [scatterIdx_nil_vals]
    | cons v vs =>
      rw [scatterIdx_cons, ih, List.length_set]

theorem getD_scatterIdx_not_mem {j : Nat} (vals : List α) {idx : List Nat}
    (dst : List α) (d : α) (h : j ∉ idx) :
    (scatterIdx vals idx dst).getD j d = dst.getD j d := by
  induction idx generalizing vals dst with
  | nil => rfl
  | cons i is ih =>
    cases vals with
    | nil => rw [scatterIdx_nil_vals]
    | cons v vs =>
      rw [scatterIdx_cons, ih vs _ (fun hm => h (List.mem_cons_of_mem i hm)),
        getD_set_ne dst v d (fun he => h (by rw [← he]; exact List.mem_cons_self i is))]

theorem gatherIdx_scatterIdx_self (d : α) {vals : List α} {idx : List Nat}
    {dst : List α} (hnd : idx.Nodup) (hb : ∀ i ∈ idx, i < dst.length)
    (hl : vals.length = idx.length) :
    gatherIdx d (scatterIdx vals idx dst) idx = vals := by
  induction idx generalizing vals dst with
  | nil => simpa [gatherIdx] using (List.length_eq_zero.mp hl).symm ▸ rfl
  | cons i is ih =>
    cases vals with
    | nil => simp at hl
    | cons v vs =>
      rw [scatterIdx_cons]
      have hnd' := List.nodup_cons.mp hnd
      have hb' : ∀ x ∈ is, x < (dst.set i v).length := by
        intro x hx
        rw [List.length_set]
        exact hb x (List.mem_cons_of_mem i hx)
      have hl' : vs.length = is.length := by simpa using hl
      show (scatterIdx vs is (dst.set i v)).getD i d ::
        gatherIdx d (scatterIdx vs is (dst.set i v)) is = v :: vs
      rw [getD_scatterIdx_not_mem vs (dst.set i v) d hnd'.1,
        getD_set_self dst i v d (hb i (List.mem_cons_self i is)),
        ih hnd'.2 hb' hl']

theorem gatherIdx_congr (d : α) {s t : List α} (idx : List Nat)
    (h : ∀ i ∈ idx, s.getD i d = t.getD i d) :
    gatherIdx d s idx = gatherIdx d t idx := by
  unfold gatherIdx
  exact List.map_eq_map_iff.mpr h

/-! ## Characterisation of the per-node update pass -/

theorem pushedSpec_congr [DecidableEq α] (d : α)
    (compute : List Nat → List α → List α) {s t : List α}
    (ns : List (List Nat)) (k : Nat)
    (h : ∀ n ∈ ns, gatherIdx d s n = gatherIdx d t n) :
    pushedSpec d compute s ns k = pushedSpec d compute t ns k := by
  induction ns generalizing k with
  | nil => rfl
  | cons n ms ih =>
    have hn := h n (List.mem_cons_self n ms)
    have ih' := ih (k + 1) (fun m hm => h m (List.mem_cons_of_mem n hm))
    unfold pushedSpec
    rw [hn, ih']

theorem mem_pushedSpec [DecidableEq α] (d : α)
    (compute : List Nat → List α → List α) (store : List α)
    (ns : List (List Nat)) (k i : Nat) :
    i ∈ pushedSpec d compute store ns k ↔
      ∃ j, j < ns.length ∧ i = k + j ∧
        nodeComputeChanged d compute store (ns.getD j []) := by
  induction ns generalizing k with
  | nil => simp [pushedSpec]
  | cons n ms ih =>
    unfold pushedSpec
    by_cases hc : compute n (gatherIdx d store n) = gatherIdx d store n
    · rw [if_pos hc, ih (k + 1)]
      constructor
      · rintro ⟨j, hj, hi, hch⟩
        exact ⟨j + 1, by simpa using hj, by omega, by simpa using hch⟩
      · rintro ⟨j, hj, hi, hch⟩
        cases j with
        | zero => exact absurd hch (by simpa [nodeComputeChanged] using hc)
        | succ j' => exact ⟨j', by simpa using hj, by omega, by simpa using hch⟩
    · rw [if_neg hc]
      constructor
      · intro hm
        rcases List.mem_cons.mp hm with he | hm'
        · exact ⟨0, by simp, by omega, by simpa [nodeComputeChanged] using hc⟩
        · rcases (ih (k + 1)).mp hm' with ⟨j, hj, hi, hch⟩
          exact ⟨j + 1, by simpa using hj, by omega, by simpa using hch⟩
      · rintro ⟨j, hj, hi, hch⟩
        cases j with
        | zero => exact hi ▸ List.mem_cons_self k _
        | succ j' =>
          exact List.mem_cons_of_mem k
            ((ih (k + 1)).mpr ⟨j', by simpa using hj, by omega, by simpa using hch⟩)

theorem length_gatherIdx (d : α) (src : List α) (idx : List Nat) :
    (gatherIdx d src idx).length = idx.length := by
  unfold gatherIdx
  exact List.length_map _ _

theorem node_update_go_cons [DecidableEq α] (d : α)
    (compute : List Nat → List α → List α) (n : List Nat) (ns : List (List Nat))
    (k : Nat) (acc : NodeFoldResult α) :
    node_update_go d compute (n :: ns) k acc =
      (if compute n (gatherIdx d acc.store n) = gatherIdx d acc.store n then
        node_update_go d compute ns (k + 1) acc
      else
        node_update_go d compute ns (k + 1)
          ⟨scatterIdx (compute n (gatherIdx d acc.store n)) n acc.store,
           acc.pushed ++ [k], true⟩) := rfl

theorem pushedSpec_cons [DecidableEq α] (d : α)
    (compute : List Nat → List α → List α) (store : List α)
    (n : List Nat) (ns : List (List Nat)) (k : Nat) :
    pushedSpec d compute store (n :: ns) k =
      (if compute n (gatherIdx d store n) = gatherIdx d store n then
        pushedSpec d compute store ns (k + 1)
      else k :: pushedSpec d compute store ns (k + 1)) := rfl

/-- Full characterisation of the per-node update pass: over pairwise
disjoint, duplicate free, in-bounds nodes, the pass leaves the store
length unchanged, leaves untouched every element outside the nodes,
rewrites each node's elements exactly when its recompute differs from the
snapshot, pushes exactly the changed nodes, and reports `any_changed`
exactly when some node was pushed. -/
theorem node_update_go_spec [DecidableEq α] (d : α)
    (compute : List Nat → List α → List α)
    (hlen : ∀ idx (olds : List α), olds.length = idx.length →
      (compute idx olds).length = olds.length) :
    ∀ (nodes : List (List Nat)) (k : Nat) (store : List α)
      (pushed0 : List Nat) (any0 : Bool),
      (∀ n ∈ nodes, n.Nodup) →
      (∀ n ∈ nodes, ∀ i ∈ n, i < store.length) →
      nodes.Pairwise (fun a b => ∀ x ∈ a, x ∉ b) →
      (node_update_go d compute nodes k ⟨store, pushed0, any0⟩).store.length
          = store.length ∧
      (∀ j, (∀ n ∈ nodes, j ∉ n) →
        (node_update_go d compute nodes k ⟨store, pushed0, any0⟩).store.getD j d
          = store.getD j d) ∧
      (∀ m ∈ nodes,
        gatherIdx d (node_update_go d compute nodes k ⟨store, pushed0, any0⟩).store m
          = (if nodeComputeChanged d compute store m
             then compute m (gatherIdx d store m)
             else gatherIdx d store m)) ∧
      (node_update_go d compute nodes k ⟨store, pushed0, any0⟩).pushed
          = pushed0 ++ pushedSpec d compute store nodes k ∧
      (node_update_go d compute nodes k ⟨store, pushed0, any0⟩).any_changed
          = (any0 || !(pushedSpec d compute store nodes k).isEmpty) := by
  intro nodes
  induction nodes with
  | nil =>
    intro k store pushed0 any0 _ _ _
    refine ⟨rfl, fun j _ => rfl, fun m hm => absurd hm (List.not_mem_nil m), ?_, ?_⟩
    · simp [node_update_go, pushedSpec]
    · simp [node_update_go, pushedSpec]
  | cons n ns ih =>
    intro k store pushed0 any0 hnd hb hdisj
    have hnd_n := hnd n (List.mem_cons_self n ns)
    have hnd_ns := fun m hm => hnd m (List.mem_cons_of_mem n hm)
    have hb_n := hb n (List.mem_cons_self n ns)
    have hb_ns := fun m hm => hb m (List.mem_cons_of_mem n hm)
    have hd := (List.pairwise_cons.mp hdisj).1
    have hdisj_ns := (List.pairwise_cons.mp hdisj).2
    have hmem_n_not_ns : ∀ m ∈ ns, ∀ j ∈ n, j ∉ m := fun m hm j hj => hd m hm j hj
    have hmem_ns_not_n : ∀ m ∈ ns, ∀ j ∈ m, j ∉ n := by
      intro m hm j hjm hjn
      exact hd m hm j hjn hjm
    by_cases hc : compute n (gatherIdx d store n) = gatherIdx d store n
    · have hstep : node_update_go d compute (n :: ns) k ⟨store, pushed0, any0⟩
          = node_update_go d compute ns (k + 1) ⟨store, pushed0, any0⟩ := by
        rw [node_update_go_cons]
        exact if_pos hc
      obtain ⟨ihl, iho, ihn, ihp, iha⟩ := ih (k + 1) store pushed0 any0 hnd_ns hb_ns hdisj_ns
      rw [hstep]
      refine ⟨ihl, ?_, ?_, ?_, ?_⟩
      · intro j hj
        exact iho j (fun m hm => hj m (List.mem_cons_of_mem n hm))
      · intro m hm
        rcases List.mem_cons.mp hm with he | hm'
        · subst he
          have hng : ∀ j ∈ m, (node_update_go d compute ns (k + 1)
              ⟨store, pushed0, any0⟩).store.getD j d = store.getD j d := by
            intro j hj
            exact iho j (fun m' hm' => hmem_n_not_ns m' hm' j hj)
          rw [gatherIdx_congr d m hng,
            if_neg (by simpa [nodeComputeChanged] using hc)]
        · exact ihn m hm'
      · rw [ihp, pushedSpec_cons, if_pos hc]
      · rw [iha, pushedSpec_cons, if_pos hc]
    · have hstep : node_update_go d compute (n :: ns) k ⟨store, pushed0, any0⟩
          = node_update_go d compute ns (k + 1)
              ⟨scatterIdx (compute n (gatherIdx d store n)) n store,
               pushed0 ++ [k], true⟩ := by
        rw [node_update_go_cons]
        exact if_neg hc
      have hslen : (scatterIdx (compute n (gatherIdx d store n)) n store).length
          = store.length := length_scatterIdx _ _ _
      have hb_ns' : ∀ m ∈ ns, ∀ i ∈ m,
          i < (scatterIdx (compute n (gatherIdx d store n)) n store).length := by
        intro m hm i him
        rw [hslen]
        exact hb_ns m hm i him
      obtain ⟨ihl, iho, ihn, ihp, iha⟩ := ih (k + 1)
        (scatterIdx (compute n (gatherIdx d store n)) n store)
        (pushed0 ++ [k]) true hnd_ns hb_ns' hdisj_ns
      have hgather_tail : ∀ m ∈ ns,
          gatherIdx d (scatterIdx (compute n (gatherIdx d store n)) n store) m
            = gatherIdx d store m := by
        intro m hm
        apply gatherIdx_congr
        intro j hj
        exact getD_scatterIdx_not_mem _ store d (hmem_ns_not_n m hm j hj)
      rw [hstep]
      refine ⟨ihl.trans hslen, ?_, ?_, ?_, ?_⟩
      · intro j hj
        rw [iho j (fun m hm => hj m (List.mem_cons_of_mem n hm))]
        exact getD_scatterIdx_not_mem _ store d (hj n (List.mem_cons_self n ns))
      · intro m hm
        rcases List.mem_cons.mp hm with he | hm'
        · subst he
          have hng : ∀ j ∈ m, (node_update_go d compute ns (k + 1)
              ⟨scatterIdx (compute m (gatherIdx d store m)) m store,
               pushed0 ++ [k], true⟩).store.getD j d
                = (scatterIdx (compute m (gatherIdx d store m)) m store).getD j d := by
            intro j hj
            exact iho j (fun m' hm' => hmem_n_not_ns m' hm' j hj)
          rw [gatherIdx_congr d m hng,
            gatherIdx_scatterIdx_self d hnd_n hb_n
              ((hlen m _ (length_gatherIdx d store m)).trans (length_gatherIdx d store m)),
            if_pos (by simpa [nodeComputeChanged] using hc)]
        · rw [ihn m hm', hgather_tail m hm']
          by_cases hch : nodeComputeChanged d compute store m
          · rw [if_pos hch, if_pos (by simpa [nodeComputeChanged, hgather_tail m hm'] using hch)]
          · rw [if_neg hch, if_neg (by simpa [nodeComputeChanged, hgather_tail m hm'] using hch)]
      · rw [ihp, pushedSpec_congr d compute ns (k + 1) hgather_tail,
          pushedSpec_cons, if_neg hc]
        simp
      · rw [iha, pushedSpec_cons, if_neg hc]
        simp

/-- The pass over the full node list, packaged for the operation-level
proofs (`k = 0`, empty initial push list). -/
theorem node_update_fold_spec [DecidableEq α] (d : α)
    (compute : List Nat → List α → List α)
    (nodes : List (List Nat)) (store : List α)
    (hlen : ∀ idx (olds : List α), olds.length = idx.length →
      (compute idx olds).length = olds.length)
    (hnd : ∀ n ∈ nodes, n.Nodup)
    (hb : ∀ n ∈ nodes, ∀ i ∈ n, i < store.length)
    (hdisj : nodes.Pairwise (fun a b => ∀ x ∈ a, x ∉ b)) :
    (node_update_fold d compute nodes store).store.length = store.length ∧
    (∀ j, (∀ n ∈ nodes, j ∉ n) →
      (node_update_fold d compute nodes store).store.getD j d = store.getD j d) ∧
    (∀ m ∈ nodes,
      gatherIdx d (node_update_fold d compute nodes store).store m
        = (if nodeComputeChanged d compute store m
           then compute m (gatherIdx d store m)
           else gatherIdx d store m)) ∧
    (node_update_fold d compute nodes store).pushed
        = pushedSpec d compute store nodes 0 ∧
    (node_update_fold d compute nodes store).any_changed
        = !(pushedSpec d compute store nodes 0).isEmpty := by
  have h := node_update_go_spec d compute hlen nodes 0 store [] false hnd hb hdisj
  unfold node_update_fold
  exact ⟨h.1, h.2.1, h.2.2.1, by simpa using h.2.2.2.1, by simpa using h.2.2.2.2⟩

/-- When no node's recompute differs from its snapshot, the pass is a
complete no-op: unchanged store, no pushes, `any_changed` false. -/
theorem node_update_go_noop [DecidableEq α] (d : α)
    (compute : List Nat → List α → List α) :
    ∀ (nodes : List (List Nat)) (k : Nat) (acc : NodeFoldResult α),
      (∀ n ∈ nodes, compute n (gatherIdx d acc.store n) = gatherIdx d acc.store n) →
      node_update_go d compute nodes k acc = acc := by
  intro nodes
  induction nodes with
  | nil => intro k acc _; rfl
  | cons n ns ih =>
    intro k acc hno
    unfold node_update_go
    rw [if_pos (hno n (List.mem_cons_self n ns))]
    exact ih (k + 1) acc (fun m hm => hno m (List.mem_cons_of_mem n hm))

/-! ## Claim C10 -/

/-- C10: `node_visible_verts` returns the empty span for every node whose
cached fully-hidden flag is set, regardless of `hide_vert`; for a node not
fully hidden it returns the entire unique-vertex list when the `hide_vert`
span is empty, and otherwise exactly the unique vertices whose `hide_vert`
entry is false, in their original order. -/
theorem claim_C10_node_visible_verts (fullyHidden : Bool) (uniqueVerts : List Nat)
    (hide_vert : List Bool) :
    (fullyHidden = true → node_visible_verts fullyHidden uniqueVerts hide_vert = []) ∧
    (fullyHidden = false → hide_vert = [] →
      node_visible_verts fullyHidden uniqueVerts hide_vert = uniqueVerts) ∧
    (fullyHidden = false → hide_vert ≠ [] →
      node_visible_verts fullyHidden uniqueVerts hide_vert =
        uniqueVerts.filter (fun vert => !hide_vert.getD vert false)) := by
  refine ⟨fun h => ?_, fun h he => ?_, fun h hne => ?_⟩
  · simp [node_visible_verts, h]
  · simp [node_visible_verts, h, he]
  · simp [node_visible_verts, h, List.isEmpty_iff, hne]

/-- Witness for C10 at a concrete node: fully hidden gives `[]`, a
non-fully-hidden node with vertices `[2, 5, 7]` and `hide_vert` hiding
vertex 5 gives `[2, 7]`. -/
theorem claim_C10_witness :
    node_visible_verts true [2, 5, 7] [false, false, false, false, false, true] = [] ∧
    node_visible_verts false [2, 5, 7] [] = [2, 5, 7] ∧
    node_visible_verts false [2, 5, 7] [false, false, false, false, false, true] = [2, 7] := by
  refine ⟨?_, ?_, ?_⟩
  · exact (claim_C10_node_visible_verts true [2, 5, 7] _).1 rfl
  · exact (claim_C10_node_visible_verts false [2, 5, 7] []).2.1 rfl rfl
  · rw [(claim_C10_node_visible_verts false [2, 5, 7] _).2.2 rfl (by decide)]
    decide

/-! ## Support lemmas for the grid grow/shrink pass -/

theorem foldl_prod_split {β γ δ : Type _} (f : γ → β → γ) (g : δ → β → δ)
    (l : List β) (st : γ × δ) :
    l.foldl (fun acc b => (f acc.1 b, g acc.2 b)) st = (l.foldl f st.1, l.foldl g st.2) := by
  induction l generalizing st with
  | nil => rfl
  | cons b bs ih => exact ih (f st.1 b, g st.2 b)

theorem length_foldl_set_true {β : Type _} (ps : List (Nat × β)) (nc : List Bool) :
    (ps.foldl (fun nc p => nc.set p.1 true) nc).length = nc.length := by
  induction ps generalizing nc with
  | nil => rfl
  | cons p ps ih => rw [List.foldl_cons, ih, List.length_set]

theorem getD_foldl_set_true {β : Type _} :
    ∀ (ps : List (Nat × β)) (nc : List Bool) (i : Nat), i < nc.length →
      (nc.getD i false = true ∨ i ∈ ps.map Prod.fst) →
      (ps.foldl (fun nc p => nc.set p.1 true) nc).getD i false = true := by
  intro ps
  induction ps with
  | nil =>
    intro nc i hi h
    rcases h with h | h
    · exact h
    · exact absurd h (List.not_mem_nil i)
  | cons p ps ih =>
    intro nc i hi h
    rw [List.foldl_cons]
    apply ih _ i (by rw [List.length_set]; exact hi)
    by_cases hip : i = p.1
    · subst hip
      exact Or.inl (getD_set_self nc p.1 true false hi)
    · rcases h with h | h
      · exact Or.inl (by rw [getD_set_ne nc true false (fun he => hip he.symm)]; exact h)
      · rcases List.mem_cons.mp h with he | hm
        · exact absurd he hip
        · exact Or.inr hm

theorem grow_shrink_grid_step_nc (g : Grids)
    (neighbors : SubdivCCGCoord → List SubdivCCGCoord)
    (nodes : List (List Nat)) (desired : Bool)
    (st : DualBitBuffer × List Bool) (i : Nat) :
    (grow_shrink_grid_step g neighbors nodes desired st i).2
      = nodes.enum.foldl (fun nc p => nc.set p.1 true) st.2 := by
  unfold grow_shrink_grid_step
  dsimp only
  exact congrArg Prod.snd (foldl_prod_split
    (fun wb (p : Nat × List Nat) =>
      p.2.foldl
        (fun wb gi =>
          grid_write_neighbors g.gridSize desired neighbors (st.1.read_buffer i) gi wb)
        wb)
    (fun nc (p : Nat × List Nat) => nc.set p.1 true)
    nodes.enum (st.1.write_buffer i, st.2))

theorem grow_shrink_grid_step_nc_length (g : Grids)
    (neighbors : SubdivCCGCoord → List SubdivCCGCoord)
    (nodes : List (List Nat)) (desired : Bool)
    (st : DualBitBuffer × List Bool) (i : Nat) :
    (grow_shrink_grid_step g neighbors nodes desired st i).2.length = st.2.length := by
  rw [grow_shrink_grid_step_nc]
  exact length_foldl_set_true _ _

theorem grow_shrink_grid_step_nc_true (g : Grids)
    (neighbors : SubdivCCGCoord → List SubdivCCGCoord)
    (nodes : List (List Nat)) (desired : Bool)
    (st : DualBitBuffer × List Bool) (i : Nat)
    (hlen : st.2.length = nodes.length) :
    ∀ j < nodes.length,
      (grow_shrink_grid_step g neighbors nodes desired st i).2.getD j false = true := by
  intro j hj
  rw [grow_shrink_grid_step_nc]
  apply getD_foldl_set_true
  · rw [hlen]; exact hj
  · right
    rw [List.enum_map_fst, List.mem_range]
    exact hj

theorem grow_shrink_grid_fold_nc (g : Grids)
    (neighbors : SubdivCCGCoord → List SubdivCCGCoord)
    (nodes : List (List Nat)) (desired : Bool) :
    ∀ (its : List Nat) (st : DualBitBuffer × List Bool),
      st.2.length = nodes.length →
      ((its.foldl (grow_shrink_grid_step g neighbors nodes desired) st).2.length
          = nodes.length) ∧
      (its ≠ [] → ∀ j < nodes.length,
        (its.foldl (grow_shrink_grid_step g neighbors nodes desired) st).2.getD j false
          = true) := by
  intro its
  induction its with
  | nil =>
    intro st hlen
    exact ⟨hlen, fun h => absurd rfl h⟩
  | cons i rest ih =>
    intro st hlen
    rw [List.foldl_cons]
    have hlen' : (grow_shrink_grid_step g neighbors nodes desired st i).2.length
        = nodes.length := by
      rw [grow_shrink_grid_step_nc_length]; exact hlen
    refine ⟨(ih _ hlen').1, fun _ j hj => ?_⟩
    cases rest with
    | nil => exact grow_shrink_grid_step_nc_true g neighbors nodes desired st i hlen j hj
    | cons i2 rest2 => exact (ih _ hlen').2 (by simp) j hj

/-! ## Claim C2 -/

/-- C2 counterexample: on a one-node, one-grid, all-visible object, a
shrink (`Hide`) invocation changes no grid bit - the final bit structure
has the same content as the initial one - yet the code pushes an undo
record for the node and marks it dirty, because `node_changed` is set
unconditionally inside the iteration loop. -/
theorem claim_C2_counterexample :
    (grow_shrink_visibility_grid smallGrids (fun _ => []) [[0]]
        VisAction.Hide 1).grids.grid_hidden = smallGrids.grid_hidden ∧
    (grow_shrink_visibility_grid smallGrids (fun _ => []) [[0]]
        VisAction.Hide 1).pushed ≠ [] ∧
    (grow_shrink_visibility_grid smallGrids (fun _ => []) [[0]]
        VisAction.Hide 1).dirty ≠ [] := by
  decide

/-- C2 amended: a grid grow/shrink invocation with at least one iteration
pushes an undo record for every node of the gathered set and marks every
node dirty, regardless of whether any grid bit changed. -/
theorem claim_C2_grid_grow_shrink_pushes_all (g : Grids)
    (neighbors : SubdivCCGCoord → List SubdivCCGCoord)
    (nodes : List (List Nat)) (action : VisAction) (iterations : Nat)
    (hit : 0 < iterations) :
    (grow_shrink_visibility_grid g neighbors nodes action iterations).pushed
        = List.range nodes.length ∧
    (grow_shrink_visibility_grid g neighbors nodes action iterations).dirty
        = List.range nodes.length := by
  have hne : List.range iterations ≠ [] := by
    cases iterations with
    | zero => exact absurd hit (by omega)
    | succ n =>
      intro h
      have := congrArg List.length h
      simp at this
  have hnc := (grow_shrink_grid_fold_nc g neighbors nodes (action_to_hide action)
    (List.range iterations) (⟨g.gridHiddenEnsure, g.gridHiddenEnsure⟩,
      List.replicate nodes.length false) (by simp)).2 hne
  have hfilter : (List.range nodes.length).filter
      (fun i => ((List.range iterations).foldl
        (grow_shrink_grid_step g neighbors nodes (action_to_hide action))
        (⟨g.gridHiddenEnsure, g.gridHiddenEnsure⟩,
         List.replicate nodes.length false)).2.getD i false)
      = List.range nodes.length := by
    apply List.filter_eq_self.mpr
    intro a ha
    exact hnc a (List.mem_range.mp ha)
  unfold grow_shrink_visibility_grid
  exact ⟨hfilter, hfilter⟩

/-- C2 witness: the amended theorem applied at the concrete no-change
input of the counterexample. -/
theorem claim_C2_witness :
    0 < 1 ∧
    (grow_shrink_visibility_grid smallGrids (fun _ => []) [[0]]
        VisAction.Hide 1).pushed = List.range 1 :=
  ⟨by decide,
   (claim_C2_grid_grow_shrink_pushes_all smallGrids (fun _ => []) [[0]]
     VisAction.Hide 1 (by decide)).1⟩

/-! ## Support lemmas for show-all and the dynamic-topology pass -/

theorem mesh_show_all_hide_vert_none (m : Mesh) (nodes : List PBVHNodeMesh) :
    (mesh_show_all m nodes).mesh.hide_vert = none := by
  unfold mesh_show_all mesh_hide_vert_flush
  rfl

theorem partialvis_all_update_mesh_show_hide_vert_none (m : Mesh)
    (nodes : List PBVHNodeMesh) :
    (partialvis_all_update_mesh m VisAction.Show nodes).mesh.hide_vert = none := by
  unfold partialvis_all_update_mesh
  by_cases h : m.hide_vert = none
  · rw [if_pos ⟨rfl, h⟩]
    exact h
  · rw [if_neg (fun hc => h hc.2)]
    exact mesh_show_all_hide_vert_none m nodes

theorem bmesh_vert_step_any_changed (action : VisAction) (vert_test : Nat → Bool)
    (acc : BMVertPass) (v : Nat) :
    (bmesh_vert_step action vert_test acc v).any_changed
      = (acc.any_changed || vert_test v) := by
  unfold bmesh_vert_step
  by_cases hv : vert_test v = true
  · simp [hv]
  · rw [Bool.not_eq_true] at hv
    simp [hv]

theorem bmesh_verts_pass_any_changed (action : VisAction) (vert_test : Nat → Bool) :
    ∀ (verts : List Nat) (st : BMVertPass),
      (partialvis_update_bmesh_verts verts action vert_test st).any_changed
        = (st.any_changed || verts.any vert_test) := by
  intro verts
  induction verts with
  | nil => intro st; simp [partialvis_update_bmesh_verts]
  | cons v vs ih =>
    intro st
    unfold partialvis_update_bmesh_verts at ih ⊢
    rw [List.foldl_cons, ih, bmesh_vert_step_any_changed, List.any_cons, Bool.or_assoc]

theorem bmesh_node_step_pushed (faces : List (List Nat)) (action : VisAction)
    (vert_test : Nat → Bool) (acc : BMeshResult) (p : Nat × BMeshNode) :
    (bmesh_node_step faces action vert_test acc p).pushed = acc.pushed ++ [p.1] := rfl

theorem bmesh_node_step_dirty (faces : List (List Nat)) (action : VisAction)
    (vert_test : Nat → Bool) (acc : BMeshResult) (p : Nat × BMeshNode) :
    (bmesh_node_step faces action vert_test acc p).dirty
      = (if (p.2.uniqueVerts ++ p.2.otherVerts).any vert_test then acc.dirty ++ [p.1]
         else acc.dirty) := by
  unfold bmesh_node_step
  dsimp only
  rw [bmesh_verts_pass_any_changed, bmesh_verts_pass_any_changed]
  dsimp only
  rw [Bool.false_or, ← List.any_append]

theorem bmesh_fold_pushed (faces : List (List Nat)) (action : VisAction)
    (vert_test : Nat → Bool) :
    ∀ (ps : List (Nat × BMeshNode)) (acc : BMeshResult),
      (ps.foldl (bmesh_node_step faces action vert_test) acc).pushed
        = acc.pushed ++ ps.map Prod.fst := by
  intro ps
  induction ps with
  | nil => intro acc; simp
  | cons p ps ih =>
    intro acc
    rw [List.foldl_cons, ih, bmesh_node_step_pushed]
    simp

theorem bmesh_fold_dirty (faces : List (List Nat)) (action : VisAction)
    (vert_test : Nat → Bool) :
    ∀ (ps : List (Nat × BMeshNode)) (acc : BMeshResult),
      (ps.foldl (bmesh_node_step faces action vert_test) acc).dirty
        = acc.dirty ++
          (ps.filter (fun p => (p.2.uniqueVerts ++ p.2.otherVerts).any vert_test)).map
            Prod.fst := by
  intro ps
  induction ps with
  | nil => intro acc; simp
  | cons p ps ih =>
    intro acc
    rw [List.foldl_cons, ih, bmesh_node_step_dirty]
    rw [List.filter_cons]
    by_cases hp : (p.2.uniqueVerts ++ p.2.otherVerts).any vert_test = true
    · rw [if_pos hp, if_pos hp]
      simp
    · rw [if_neg hp, if_neg hp]

theorem partialvis_update_bmesh_nodes_pushed (faces : List (List Nat))
    (st : BMeshState) (nodes : List BMeshNode) (action : VisAction)
    (vert_test : Nat → Bool) :
    (partialvis_update_bmesh_nodes faces st nodes action vert_test).pushed
      = List.range nodes.length := by
  unfold partialvis_update_bmesh_nodes
  rw [bmesh_fold_pushed, List.enum_map_fst]
  rfl

theorem grids_show_all_none (g : Grids) (nodes : List (List Nat))
    (hg : g.grid_hidden = none) :
    grids_show_all g nodes = ⟨g, [], [], false, false⟩ := by
  unfold grids_show_all
  rw [hg]

theorem grids_show_all_cases (g : Grids) (nodes : List (List Nat)) :
    grids_show_all g nodes = ⟨g, [], [], false, false⟩ ∨
    (grids_show_all g nodes).grids.grid_hidden = none := by
  match hg : g.grid_hidden with
  | none => exact Or.inl (grids_show_all_none g nodes hg)
  | some gh =>
    by_cases ht : ((nodes.enum.filter (fun p => p.2.any (fun i =>
        (gh.getD i []).any (fun b => b)))).map Prod.fst).isEmpty = true
    · left
      unfold grids_show_all
      rw [hg]
      dsimp only
      rw [if_pos ht]
    · right
      unfold grids_show_all
      rw [hg]
      dsimp only
      rw [if_neg ht]

theorem list_ext_getD (l1 l2 : List α) (d : α) (hlen : l1.length = l2.length)
    (h : ∀ i, i < l1.length → l1.getD i d = l2.getD i d) : l1 = l2 := by
  refine List.ext_getElem hlen (fun n h1 h2 => ?_)
  have hn := h n h1
  rw [List.getD_eq_getElem?_getD, List.getElem?_eq_getElem h1,
    List.getD_eq_getElem?_getD, List.getElem?_eq_getElem h2] at hn
  exact hn

theorem snd_mem_of_mem_enumFrom {β : Type _} :
    ∀ (l : List β) (k : Nat) (p : Nat × β), p ∈ List.enumFrom k l → p.2 ∈ l := by
  intro l
  induction l with
  | nil =>
    intro k p hp
    exact absurd hp (List.not_mem_nil p)
  | cons a as ih =>
    intro k p hp
    rw [List.enumFrom_cons] at hp
    rcases List.mem_cons.mp hp with he | hm
    · rw [he]
      exact List.mem_cons_self a as
    · exact List.mem_cons_of_mem a (ih (k + 1) p hm)

theorem foldl_setc_length (g : Nat → Bool) :
    ∀ (js : List Nat) (l : List Bool),
      (js.foldl (fun l f => l.set f (g f)) l).length = l.length := by
  intro js
  induction js with
  | nil => intro l; rfl
  | cons j js ih =>
    intro l
    rw [List.foldl_cons, ih, List.length_set]

theorem foldl_setc_getD (g : Nat → Bool) :
    ∀ (js : List Nat), (∀ f ∈ js, g f = false) → ∀ (l : List Bool) (x : Nat),
      (js.foldl (fun l f => l.set f (g f)) l).getD x false
        = if x ∈ js then false else l.getD x false := by
  intro js
  induction js with
  | nil =>
    intro _ l x
    simp
  | cons j js ih =>
    intro hg l x
    rw [List.foldl_cons, ih (fun f hf => hg f (List.mem_cons_of_mem j hf))]
    by_cases hxj : x = j
    · have hmemc : x ∈ j :: js := by
        rw [hxj]
        exact List.mem_cons_self j js
      rw [if_pos hmemc]
      by_cases hx : x ∈ js
      · rw [if_pos hx]
      · rw [if_neg hx, hxj, hg j (List.mem_cons_self j js)]
        by_cases hlt : j < l.length
        · rw [getD_set_self _ _ _ _ hlt]
        · rw [List.set_eq_of_length_le (Nat.le_of_not_lt hlt),
            List.getD_eq_default _ _ (Nat.le_of_not_lt hlt)]
    · rw [getD_set_ne _ _ _ (fun he => hxj he.symm)]
      by_cases hx : x ∈ js
      · rw [if_pos hx, if_pos (List.mem_cons_of_mem j hx)]
      · rw [if_neg hx, if_neg (fun hc =>
          hx ((List.mem_cons.mp hc).resolve_left hxj))]

/-- The show-all vertex pass writes `false` over the visited vertices and
does nothing else to the flag array. -/
theorem bmesh_show_pass_vertHidden :
    ∀ (verts : List Nat) (st : BMVertPass),
      (partialvis_update_bmesh_verts verts VisAction.Show (fun _ => true) st).vertHidden
        = verts.foldl (fun vh v => vh.set v false) st.vertHidden := by
  intro verts
  induction verts with
  | nil => intro st; rfl
  | cons v vs ih =>
    intro st
    rw [List.foldl_cons]
    exact ih (bmesh_vert_step VisAction.Show (fun _ => true) st v)

theorem bmesh_show_node_step_state (faces : List (List Nat)) (acc : BMeshResult)
    (p : Nat × BMeshNode) :
    (bmesh_node_step faces VisAction.Show (fun _ => true) acc p).state.vertHidden
      = (p.2.uniqueVerts ++ p.2.otherVerts).foldl (fun vh v => vh.set v false)
          acc.state.vertHidden ∧
    (bmesh_node_step faces VisAction.Show (fun _ => true) acc p).state.faceHidden
      = p.2.faceIndices.foldl (fun fh f => fh.set f
          (paint_is_bmesh_face_hidden (faces.getD f [])
            ((p.2.uniqueVerts ++ p.2.otherVerts).foldl (fun vh v => vh.set v false)
              acc.state.vertHidden)))
          acc.state.faceHidden := by
  have hv : (partialvis_update_bmesh_verts p.2.otherVerts VisAction.Show (fun _ => true)
      (partialvis_update_bmesh_verts p.2.uniqueVerts VisAction.Show (fun _ => true)
        ⟨acc.state.vertHidden, false, false⟩)).vertHidden
      = (p.2.uniqueVerts ++ p.2.otherVerts).foldl (fun vh v => vh.set v false)
          acc.state.vertHidden := by
    rw [bmesh_show_pass_vertHidden, bmesh_show_pass_vertHidden, List.foldl_append]
  constructor
  · exact hv
  · show partialvis_update_bmesh_faces faces p.2.faceIndices
        (partialvis_update_bmesh_verts p.2.otherVerts VisAction.Show (fun _ => true)
          (partialvis_update_bmesh_verts p.2.uniqueVerts VisAction.Show (fun _ => true)
            ⟨acc.state.vertHidden, false, false⟩)).vertHidden
        acc.state.faceHidden
      = p.2.faceIndices.foldl (fun fh f => fh.set f
          (paint_is_bmesh_face_hidden (faces.getD f [])
            ((p.2.uniqueVerts ++ p.2.otherVerts).foldl (fun vh v => vh.set v false)
              acc.state.vertHidden)))
          acc.state.faceHidden
    unfold partialvis_update_bmesh_faces
    rw [hv]

/-- The state after a show-all node fold, pointwise: every vertex owned by
some processed node is visible (and the rest keep their flags), and every
face of a processed node is visible provided each of its corner vertices
belongs to the owning node's vertex set (the PBVH tree contract). -/
theorem bmesh_show_run_spec (faces : List (List Nat)) :
    ∀ (ps : List (Nat × BMeshNode)) (acc : BMeshResult),
      (∀ p ∈ ps, ∀ f ∈ p.2.faceIndices, ∀ v ∈ faces.getD f [],
        v ∈ p.2.uniqueVerts ++ p.2.otherVerts) →
      ((ps.foldl (bmesh_node_step faces VisAction.Show (fun _ => true))
          acc).state.vertHidden.length = acc.state.vertHidden.length ∧
       (ps.foldl (bmesh_node_step faces VisAction.Show (fun _ => true))
          acc).state.faceHidden.length = acc.state.faceHidden.length) ∧
      (∀ x, (ps.foldl (bmesh_node_step faces VisAction.Show (fun _ => true))
            acc).state.vertHidden.getD x false
          = if ∃ p ∈ ps, x ∈ p.2.uniqueVerts ++ p.2.otherVerts then false
            else acc.state.vertHidden.getD x false) ∧
      (∀ f, (ps.foldl (bmesh_node_step faces VisAction.Show (fun _ => true))
            acc).state.faceHidden.getD f false
          = if ∃ p ∈ ps, f ∈ p.2.faceIndices then false
            else acc.state.faceHidden.getD f false) := by
  intro ps
  induction ps with
  | nil =>
    intro acc _
    refine ⟨⟨rfl, rfl⟩, fun x => ?_, fun f => ?_⟩
    · simp
    · simp
  | cons p ps ih =>
    intro acc hc
    rw [List.foldl_cons]
    obtain ⟨hsv, hsf⟩ := bmesh_show_node_step_state faces acc p
    have hc0 := hc p (List.mem_cons_self p ps)
    have hct : ∀ q ∈ ps, ∀ f ∈ q.2.faceIndices, ∀ v ∈ faces.getD f [],
        v ∈ q.2.uniqueVerts ++ q.2.otherVerts :=
      fun q hq => hc q (List.mem_cons_of_mem p hq)
    obtain ⟨⟨ihl1, ihl2⟩, ihv, ihf⟩ := ih (bmesh_node_step faces VisAction.Show
      (fun _ => true) acc p) hct
    have hvlen : ((p.2.uniqueVerts ++ p.2.otherVerts).foldl
        (fun vh v => vh.set v false) acc.state.vertHidden).length
        = acc.state.vertHidden.length :=
      foldl_setc_length (fun _ => false) (p.2.uniqueVerts ++ p.2.otherVerts)
        acc.state.vertHidden
    have hgfalse : ∀ g ∈ p.2.faceIndices,
        paint_is_bmesh_face_hidden (faces.getD g [])
          ((p.2.uniqueVerts ++ p.2.otherVerts).foldl (fun vh v => vh.set v false)
            acc.state.vertHidden) = false := by
      intro g hg
      unfold paint_is_bmesh_face_hidden
      apply List.any_eq_false.mpr
      intro v hvmem hvt
      have hval : ((p.2.uniqueVerts ++ p.2.otherVerts).foldl
          (fun vh v => vh.set v false) acc.state.vertHidden).getD v false
          = if v ∈ p.2.uniqueVerts ++ p.2.otherVerts then false
            else acc.state.vertHidden.getD v false :=
        foldl_setc_getD (fun _ => false) (p.2.uniqueVerts ++ p.2.otherVerts)
          (fun _ _ => rfl) acc.state.vertHidden v
      rw [hval, if_pos (hc0 g hg v hvmem)] at hvt
      exact Bool.false_ne_true hvt
    have hflen : (p.2.faceIndices.foldl (fun fh f => fh.set f
        (paint_is_bmesh_face_hidden (faces.getD f [])
          ((p.2.uniqueVerts ++ p.2.otherVerts).foldl (fun vh v => vh.set v false)
            acc.state.vertHidden)))
        acc.state.faceHidden).length = acc.state.faceHidden.length :=
      foldl_setc_length (fun f => paint_is_bmesh_face_hidden (faces.getD f [])
        ((p.2.uniqueVerts ++ p.2.otherVerts).foldl (fun vh v => vh.set v false)
          acc.state.vertHidden)) p.2.faceIndices acc.state.faceHidden
    have hvval : ∀ x, (bmesh_node_step faces VisAction.Show (fun _ => true)
          acc p).state.vertHidden.getD x false
        = if x ∈ p.2.uniqueVerts ++ p.2.otherVerts then false
          else acc.state.vertHidden.getD x false := by
      intro x
      rw [hsv]
      exact foldl_setc_getD (fun _ => false) (p.2.uniqueVerts ++ p.2.otherVerts)
        (fun _ _ => rfl) acc.state.vertHidden x
    have hfval : ∀ f, (bmesh_node_step faces VisAction.Show (fun _ => true)
          acc p).state.faceHidden.getD f false
        = if f ∈ p.2.faceIndices then false
          else acc.state.faceHidden.getD f false := by
      intro f
      rw [hsf]
      exact foldl_setc_getD (fun g => paint_is_bmesh_face_hidden (faces.getD g [])
        ((p.2.uniqueVerts ++ p.2.otherVerts).foldl (fun vh v => vh.set v false)
          acc.state.vertHidden)) p.2.faceIndices hgfalse acc.state.faceHidden f
    refine ⟨⟨?_, ?_⟩, fun x => ?_, fun f => ?_⟩
    · rw [ihl1, hsv]
      exact hvlen
    · rw [ihl2, hsf]
      exact hflen
    · rw [ihv x]
      by_cases h2 : ∃ q ∈ ps, x ∈ q.2.uniqueVerts ++ q.2.otherVerts
      · rw [if_pos h2,
          if_pos ((List.exists_mem_cons_iff _ p ps).mpr (Or.inr h2))]
      · rw [if_neg h2, hvval x]
        by_cases h1 : x ∈ p.2.uniqueVerts ++ p.2.otherVerts
        · rw [if_pos h1,
            if_pos ((List.exists_mem_cons_iff _ p ps).mpr (Or.inl h1))]
        · rw [if_neg h1, if_neg (fun hcon =>
            ((List.exists_mem_cons_iff _ p ps).mp hcon).elim h1 h2)]
    · rw [ihf f]
      by_cases h2 : ∃ q ∈ ps, f ∈ q.2.faceIndices
      · rw [if_pos h2,
          if_pos ((List.exists_mem_cons_iff _ p ps).mpr (Or.inr h2))]
      · rw [if_neg h2, hfval f]
        by_cases h1 : f ∈ p.2.faceIndices
        · rw [if_pos h1,
            if_pos ((List.exists_mem_cons_iff _ p ps).mpr (Or.inl h1))]
        · rw [if_neg h1, if_neg (fun hcon =>
            ((List.exists_mem_cons_iff _ p ps).mp hcon).elim h1 h2)]

/-- A second dynamic-topology show-all reproduces the state of the first:
the first pass leaves every covered vertex and every covered face visible,
and the second pass recomputes exactly the same values. -/
theorem bmesh_show_all_idempotent (faces : List (List Nat)) (st : BMeshState)
    (nodes : List BMeshNode)
    (hcorner : ∀ nd ∈ nodes, ∀ f ∈ nd.faceIndices, ∀ v ∈ faces.getD f [],
      v ∈ nd.uniqueVerts ++ nd.otherVerts) :
    (partialvis_all_update_bmesh faces
        (partialvis_all_update_bmesh faces st nodes VisAction.Show).state
        nodes VisAction.Show).state
      = (partialvis_all_update_bmesh faces st nodes VisAction.Show).state := by
  have hc : ∀ p ∈ nodes.enum, ∀ f ∈ p.2.faceIndices, ∀ v ∈ faces.getD f [],
      v ∈ p.2.uniqueVerts ++ p.2.otherVerts :=
    fun p hp => hcorner p.2 (snd_mem_of_mem_enumFrom nodes 0 p hp)
  obtain ⟨⟨h1lv, h1lf⟩, h1v, h1f⟩ := bmesh_show_run_spec faces nodes.enum
    ⟨st, [], [], []⟩ hc
  obtain ⟨⟨h2lv, h2lf⟩, h2v, h2f⟩ := bmesh_show_run_spec faces nodes.enum
    ⟨(partialvis_all_update_bmesh faces st nodes VisAction.Show).state, [], [], []⟩ hc
  have h2lv' : (nodes.enum.foldl (bmesh_node_step faces VisAction.Show (fun _ => true))
      ⟨(partialvis_all_update_bmesh faces st nodes VisAction.Show).state,
        [], [], []⟩).state.vertHidden.length
      = (partialvis_all_update_bmesh faces st nodes
          VisAction.Show).state.vertHidden.length := h2lv
  have h2lf' : (nodes.enum.foldl (bmesh_node_step faces VisAction.Show (fun _ => true))
      ⟨(partialvis_all_update_bmesh faces st nodes VisAction.Show).state,
        [], [], []⟩).state.faceHidden.length
      = (partialvis_all_update_bmesh faces st nodes
          VisAction.Show).state.faceHidden.length := h2lf
  have hveq : (nodes.enum.foldl (bmesh_node_step faces VisAction.Show (fun _ => true))
      ⟨(partialvis_all_update_bmesh faces st nodes VisAction.Show).state,
        [], [], []⟩).state.vertHidden
      = (partialvis_all_update_bmesh faces st nodes
          VisAction.Show).state.vertHidden := by
    refine list_ext_getD _ _ false h2lv' ?_
    intro i hi
    have h2vi : (nodes.enum.foldl (bmesh_node_step faces VisAction.Show (fun _ => true))
        ⟨(partialvis_all_update_bmesh faces st nodes VisAction.Show).state,
          [], [], []⟩).state.vertHidden.getD i false
        = if ∃ p ∈ nodes.enum, i ∈ p.2.uniqueVerts ++ p.2.otherVerts then false
          else (partialvis_all_update_bmesh faces st nodes
            VisAction.Show).state.vertHidden.getD i false := h2v i
    have h1vi : (partialvis_all_update_bmesh faces st nodes
        VisAction.Show).state.vertHidden.getD i false
        = if ∃ p ∈ nodes.enum, i ∈ p.2.uniqueVerts ++ p.2.otherVerts then false
          else st.vertHidden.getD i false := h1v i
    rw [h2vi]
    by_cases hex : ∃ p ∈ nodes.enum, i ∈ p.2.uniqueVerts ++ p.2.otherVerts
    · rw [if_pos hex, h1vi, if_pos hex]
    · rw [if_neg hex]
  have hfeq : (nodes.enum.foldl (bmesh_node_step faces VisAction.Show (fun _ => true))
      ⟨(partialvis_all_update_bmesh faces st nodes VisAction.Show).state,
        [], [], []⟩).state.faceHidden
      = (partialvis_all_update_bmesh faces st nodes
          VisAction.Show).state.faceHidden := by
    refine list_ext_getD _ _ false h2lf' ?_
    intro i hi
    have h2fi : (nodes.enum.foldl (bmesh_node_step faces VisAction.Show (fun _ => true))
        ⟨(partialvis_all_update_bmesh faces st nodes VisAction.Show).state,
          [], [], []⟩).state.faceHidden.getD i false
        = if ∃ p ∈ nodes.enum, i ∈ p.2.faceIndices then false
          else (partialvis_all_update_bmesh faces st nodes
            VisAction.Show).state.faceHidden.getD i false := h2f i
    have h1fi : (partialvis_all_update_bmesh faces st nodes
        VisAction.Show).state.faceHidden.getD i false
        = if ∃ p ∈ nodes.enum, i ∈ p.2.faceIndices then false
          else st.faceHidden.getD i false := h1f i
    rw [h2fi]
    by_cases hex : ∃ p ∈ nodes.enum, i ∈ p.2.faceIndices
    · rw [if_pos hex, h1fi, if_pos hex]
    · rw [if_neg hex]
  show (nodes.enum.foldl (bmesh_node_step faces VisAction.Show (fun _ => true))
      ⟨(partialvis_all_update_bmesh faces st nodes VisAction.Show).state,
        [], [], []⟩).state
    = (partialvis_all_update_bmesh faces st nodes VisAction.Show).state
  calc (nodes.enum.foldl (bmesh_node_step faces VisAction.Show (fun _ => true))
        ⟨(partialvis_all_update_bmesh faces st nodes VisAction.Show).state,
          [], [], []⟩).state
      = ⟨(nodes.enum.foldl (bmesh_node_step faces VisAction.Show (fun _ => true))
            ⟨(partialvis_all_update_bmesh faces st nodes VisAction.Show).state,
              [], [], []⟩).state.vertHidden,
         (nodes.enum.foldl (bmesh_node_step faces VisAction.Show (fun _ => true))
            ⟨(partialvis_all_update_bmesh faces st nodes VisAction.Show).state,
              [], [], []⟩).state.faceHidden⟩ := rfl
    _ = ⟨(partialvis_all_update_bmesh faces st nodes
            VisAction.Show).state.vertHidden,
         (partialvis_all_update_bmesh faces st nodes
            VisAction.Show).state.faceHidden⟩ := by rw [hveq, hfeq]
    _ = (partialvis_all_update_bmesh faces st nodes VisAction.Show).state := rfl

/-! ## Claim C6 -/

/-- C6 corrected. Counterexample on the dynamic-topology representation:
after a first show-all (which reveals the hidden vertex), a second
show-all leaves the flags unchanged but still pushes an undo record for
the node - the claim's "zero undo pushes" fails. -/
theorem claim_C6_counterexample :
    (partialvis_all_update_bmesh [] (partialvis_all_update_bmesh [] bmeshTwoState
        [bmeshTwoNode] VisAction.Show).state [bmeshTwoNode] VisAction.Show).state
      = (partialvis_all_update_bmesh [] bmeshTwoState
          [bmeshTwoNode] VisAction.Show).state ∧
    (partialvis_all_update_bmesh [] (partialvis_all_update_bmesh [] bmeshTwoState
        [bmeshTwoNode] VisAction.Show).state [bmeshTwoNode] VisAction.Show).pushed
      ≠ [] := by
  decide

/-- C6 amended: on the polygon mesh and grid representations a second
show-all invocation leaves the state identical to the state after the
first and performs zero undo pushes (and zero dirty marks); on the
dynamic-topology representation every show-all invocation - the second
included - pushes an undo record for every node, while the flags are
unchanged by the second invocation whenever every corner vertex of a
node's faces belongs to that node's vertex set (the PBVH tree
contract). -/
theorem claim_C6_show_all_twice :
    (∀ (m : Mesh) (nodes : List PBVHNodeMesh),
      (partialvis_all_update_mesh (partialvis_all_update_mesh m VisAction.Show nodes).mesh
          VisAction.Show nodes).mesh
        = (partialvis_all_update_mesh m VisAction.Show nodes).mesh ∧
      (partialvis_all_update_mesh (partialvis_all_update_mesh m VisAction.Show nodes).mesh
          VisAction.Show nodes).pushed = [] ∧
      (partialvis_all_update_mesh (partialvis_all_update_mesh m VisAction.Show nodes).mesh
          VisAction.Show nodes).dirty = []) ∧
    (∀ (g : Grids) (nodes : List (List Nat)),
      (partialvis_all_update_grids (partialvis_all_update_grids g VisAction.Show nodes).grids
          VisAction.Show nodes).grids
        = (partialvis_all_update_grids g VisAction.Show nodes).grids ∧
      (partialvis_all_update_grids (partialvis_all_update_grids g VisAction.Show nodes).grids
          VisAction.Show nodes).pushed = [] ∧
      (partialvis_all_update_grids (partialvis_all_update_grids g VisAction.Show nodes).grids
          VisAction.Show nodes).dirty = []) ∧
    (∀ (faces : List (List Nat)) (st : BMeshState) (nodes : List BMeshNode),
      (partialvis_all_update_bmesh faces
          (partialvis_all_update_bmesh faces st nodes VisAction.Show).state
          nodes VisAction.Show).pushed
        = List.range nodes.length ∧
      ((∀ nd ∈ nodes, ∀ f ∈ nd.faceIndices, ∀ v ∈ faces.getD f [],
          v ∈ nd.uniqueVerts ++ nd.otherVerts) →
        (partialvis_all_update_bmesh faces
            (partialvis_all_update_bmesh faces st nodes VisAction.Show).state
            nodes VisAction.Show).state
          = (partialvis_all_update_bmesh faces st nodes VisAction.Show).state)) := by
  refine ⟨?_, ?_, ?_⟩
  · intro m nodes
    have h1 := partialvis_all_update_mesh_show_hide_vert_none m nodes
    have h2 : partialvis_all_update_mesh
        (partialvis_all_update_mesh m VisAction.Show nodes).mesh VisAction.Show nodes
        = ⟨(partialvis_all_update_mesh m VisAction.Show nodes).mesh, [], []⟩ := by
      unfold partialvis_all_update_mesh
      rw [if_pos ⟨rfl, h1⟩]
    rw [h2]
    exact ⟨rfl, rfl, rfl⟩
  · intro g nodes
    show (grids_show_all (grids_show_all g nodes).grids nodes).grids
        = (grids_show_all g nodes).grids ∧
      (grids_show_all (grids_show_all g nodes).grids nodes).pushed = [] ∧
      (grids_show_all (grids_show_all g nodes).grids nodes).dirty = []
    rcases grids_show_all_cases g nodes with h | h
    · rw [h]
      show (grids_show_all g nodes).grids = g ∧ _ ∧ _
      rw [h]
      exact ⟨rfl, rfl, rfl⟩
    · rw [grids_show_all_none _ nodes h]
      exact ⟨rfl, rfl, rfl⟩
  · intro faces st nodes
    exact ⟨partialvis_update_bmesh_nodes_pushed faces _ nodes VisAction.Show
        (fun _ => true),
      bmesh_show_all_idempotent faces st nodes⟩

/-- C6 witness: the dynamic-topology flags-unchanged clause applied on
the two-vertex fixture, whose single node (with no faces) satisfies the
corner-ownership contract vacuously. -/
theorem claim_C6_witness :
    (partialvis_all_update_bmesh [] (partialvis_all_update_bmesh [] bmeshTwoState
        [bmeshTwoNode] VisAction.Show).state [bmeshTwoNode] VisAction.Show).state
      = (partialvis_all_update_bmesh [] bmeshTwoState
          [bmeshTwoNode] VisAction.Show).state :=
  (claim_C6_show_all_twice.2.2 [] bmeshTwoState [bmeshTwoNode]).2 (by decide)

/-! ## Claim C9 -/

theorem enumFrom_filter_ne_nil {β : Type _} (p : β → Bool) :
    ∀ (l : List β) (k : Nat), (∃ b ∈ l, p b = true) →
      (List.enumFrom k l).filter (fun q => p q.2) ≠ [] := by
  intro l
  induction l with
  | nil =>
    intro k h
    rcases h with ⟨b, hb, _⟩
    exact absurd hb (List.not_mem_nil b)
  | cons a as ih =>
    intro k h
    rw [List.enumFrom_cons, List.filter_cons]
    by_cases ha : p a = true
    · rw [if_pos ha]
      exact List.cons_ne_nil _ _
    · rw [if_neg ha]
      rcases h with ⟨b, hb, hpb⟩
      rcases List.mem_cons.mp hb with he | hm
      · exact absurd (he ▸ hpb) ha
      · exact ih (k + 1) ⟨b, hm, hpb⟩

/-- C9: show-all restores the sentinel state by deallocation: the
polygon-mesh path removes the `.hide_vert` attribute entirely (for every
input), and the grid path frees the grid-hidden bit structure entirely
whenever some bit of some node grid was set. -/
theorem claim_C9_show_all_deallocates :
    (∀ (m : Mesh) (nodes : List PBVHNodeMesh),
      (mesh_show_all m nodes).mesh.hide_vert = none) ∧
    (∀ (g : Grids) (nodes : List (List Nat)) (gh : List (List Bool)),
      g.grid_hidden = some gh →
      (∃ n ∈ nodes, ∃ i ∈ n, (gh.getD i []).any (fun b => b) = true) →
      (grids_show_all g nodes).grids.grid_hidden = none) := by
  refine ⟨mesh_show_all_hide_vert_none, ?_⟩
  intro g nodes gh hg hex
  have hne : nodes.enum.filter
      (fun p => p.2.any (fun i => (gh.getD i []).any (fun b => b))) ≠ [] := by
    have hx : ∃ n ∈ nodes, (fun n : List Nat =>
        n.any (fun i => (gh.getD i []).any (fun b => b))) n = true := by
      rcases hex with ⟨n, hn, i, hi, hb⟩
      exact ⟨n, hn, List.any_eq_true.mpr ⟨i, hi, hb⟩⟩
    exact enumFrom_filter_ne_nil _ nodes 0 hx
  unfold grids_show_all
  rw [hg]
  dsimp only
  rw [if_neg (fun hc => hne (List.map_eq_nil_iff.mp (List.isEmpty_iff.mp hc)))]

/-- C9 witness: on a one-grid object with a bit set, show-all frees the
structure; the mesh part applied at the triangle fixture. -/
theorem claim_C9_witness :
    (mesh_show_all triMesh [triNode]).mesh.hide_vert = none ∧
    (smallGridsHidden.grid_hidden = some [[true, false, false, false]] ∧
      (∃ n ∈ [[0]], ∃ i ∈ n,
        (([[true, false, false, false]] : List (List Bool)).getD i []).any
          (fun b => b) = true) ∧
      (grids_show_all smallGridsHidden [[0]]).grids.grid_hidden = none) :=
  ⟨claim_C9_show_all_deallocates.1 triMesh [triNode],
   rfl, by decide,
   claim_C9_show_all_deallocates.2 smallGridsHidden [[0]] _ rfl (by decide)⟩

/-! ## Support lemmas for the all-zero-mask no-op (claim C7) -/

theorem getD_replicate (n i : Nat) (a d : α) :
    (List.replicate n a).getD i d = if i < n then a else d := by
  induction n generalizing i with
  | zero => simp
  | succ m ih =>
    cases i with
    | zero => simp [List.replicate]
    | succ j =>
      show (List.replicate m a).getD j d = _
      rw [ih j]
      by_cases hj : j < m
      · rw [if_pos hj, if_pos (by omega)]
      · rw [if_neg hj, if_neg (by omega)]

theorem hideVertSpan_getD (m : Mesh) (v : Nat) :
    m.hideVertSpan.getD v false = m.vertHidden v := by
  unfold Mesh.hideVertSpan Mesh.vertHidden
  cases m.hide_vert with
  | none => exact getD_replicate_false _ _
  | some hv => rfl

theorem hidePolySpan_getD (m : Mesh) (f : Nat) :
    m.hidePolySpan.getD f false = m.faceHidden f := by
  unfold Mesh.hidePolySpan Mesh.faceHidden
  cases m.hide_poly with
  | none => exact getD_replicate_false _ _
  | some hp => rfl

theorem mask_getD_le (mask : List ℚ) (hz : ∀ q ∈ mask, ¬((1 : ℚ) / 2 < q)) (v : Nat) :
    ¬((1 : ℚ) / 2 < mask.getD v 0) := by
  by_cases hv : v < mask.length
  · rw [List.getD_eq_getElem?_getD, List.getElem?_eq_getElem hv]
    exact hz _ (List.getElem_mem hv)
  · rw [List.getD_eq_getElem?_getD, List.getElem?_eq_none (Nat.le_of_not_lt hv)]
    norm_num

theorem zipWith_keep_snd {β : Type _} (f : Nat → β → β) (h : ∀ v b, f v b = b) :
    ∀ (verts : List Nat) (hide : List β), hide.length = verts.length →
      List.zipWith f verts hide = hide := by
  intro verts
  induction verts with
  | nil =>
    intro hide hlen
    rw [List.length_nil, List.length_eq_zero] at hlen
    rw [hlen]
    rfl
  | cons v vs ih =>
    intro hide hlen
    cases hide with
    | nil => rfl
    | cons b bs =>
      rw [List.zipWith_cons_cons, h v b, ih bs (by simpa using hlen)]

theorem masked_calc_hide_id (mask : List ℚ) (value : Bool)
    (hz : ∀ q ∈ mask, ¬((1 : ℚ) / 2 < q)) (verts : List Nat) (hide : List Bool)
    (hlen : hide.length = verts.length) :
    masked_calc_hide mask value verts hide = hide := by
  unfold masked_calc_hide
  exact zipWith_keep_snd _ (fun v b => if_neg (mask_getD_le mask hz v)) verts hide hlen

theorem getD_mem_or_default (l : List α) (i : Nat) (d : α) :
    l.getD i d ∈ l ∨ l.getD i d = d := by
  by_cases hi : i < l.length
  · rw [List.getD_eq_getElem?_getD, List.getElem?_eq_getElem hi]
    exact Or.inl (List.getElem_mem hi)
  · rw [List.getD_eq_getElem?_getD, List.getElem?_eq_none (Nat.le_of_not_lt hi)]
    exact Or.inr rfl

theorem masked_grid_calc_id (masks : List (List ℚ)) (gridSize : Nat) (value : Bool)
    (hz : ∀ gr ∈ masks, ∀ q ∈ gr, ¬((1 : ℚ) / 2 < q)) (gi : Nat) (hide : List Bool) :
    masked_grid_calc masks gridSize value gi hide = hide := by
  have hz' : ∀ q ∈ masks.getD gi [], ¬((1 : ℚ) / 2 < q) := by
    rcases getD_mem_or_default masks gi [] with hm | he
    · exact hz _ hm
    · rw [he]
      intro q hq
      exact absurd hq (List.not_mem_nil q)
  unfold masked_grid_calc
  generalize List.range (gridSize * gridSize) = js
  induction js generalizing hide with
  | nil => rfl
  | cons j js ih =>
    rw [List.foldl_cons, if_neg (mask_getD_le _ hz' j)]
    exact ih hide

theorem node_update_fold_noop [DecidableEq α] (d : α)
    (compute : List Nat → List α → List α) (nodes : List (List Nat)) (store : List α)
    (hno : ∀ n ∈ nodes, compute n (gatherIdx d store n) = gatherIdx d store n) :
    node_update_fold d compute nodes store = ⟨store, [], false⟩ :=
  node_update_go_noop d compute nodes 0 ⟨store, [], false⟩ hno

theorem vert_hide_update_noop (m : Mesh) (nodes : List PBVHNodeMesh)
    (calc_hide : List Nat → List Bool → List Bool)
    (hno : ∀ n ∈ nodes, calc_hide n.uniqueVerts
      (gatherIdx false m.hideVertSpan n.uniqueVerts)
      = gatherIdx false m.hideVertSpan n.uniqueVerts) :
    vert_hide_update m nodes calc_hide
      = ⟨{ m with hide_vert := some m.hideVertSpan }, [], []⟩ := by
  have hfold : node_update_fold false calc_hide (nodes.map (·.uniqueVerts)) m.hideVertSpan
      = ⟨m.hideVertSpan, [], false⟩ := by
    apply node_update_fold_noop
    intro n hn
    rcases List.mem_map.mp hn with ⟨node, hnode, he⟩
    rw [← he]
    exact hno node hnode
  unfold vert_hide_update
  rw [hfold]
  rfl

theorem bmesh_vert_step_state_of_false (action : VisAction) (vert_test : Nat → Bool)
    (acc : BMVertPass) (v : Nat) (hv : vert_test v = false) :
    (bmesh_vert_step action vert_test acc v).vertHidden = acc.vertHidden := by
  unfold bmesh_vert_step
  simp [hv]

theorem bmesh_verts_pass_vertHidden_of_false (action : VisAction)
    (vert_test : Nat → Bool) (hz : ∀ v, vert_test v = false) :
    ∀ (verts : List Nat) (st : BMVertPass),
      (partialvis_update_bmesh_verts verts action vert_test st).vertHidden
        = st.vertHidden := by
  intro verts
  induction verts with
  | nil => intro st; rfl
  | cons v vs ih =>
    intro st
    unfold partialvis_update_bmesh_verts at ih ⊢
    rw [List.foldl_cons, ih]
    show (bmesh_vert_step action vert_test st v).vertHidden = st.vertHidden
    exact bmesh_vert_step_state_of_false action vert_test st v (hz v)

theorem bmesh_faces_pass_id (faces : List (List Nat)) :
    ∀ (faceIndices : List Nat) (vertHidden faceHidden : List Bool),
      (∀ f ∈ faceIndices, faceHidden.getD f false
        = paint_is_bmesh_face_hidden (faces.getD f []) vertHidden) →
      partialvis_update_bmesh_faces faces faceIndices vertHidden faceHidden
        = faceHidden := by
  intro faceIndices
  induction faceIndices with
  | nil => intro vh fh _; rfl
  | cons f fs ih =>
    intro vh fh hcons
    unfold partialvis_update_bmesh_faces at ih ⊢
    rw [List.foldl_cons,
      set_getD_self fh f false (hcons f (List.mem_cons_self f fs))]
    exact ih vh fh (fun f' hf' => hcons f' (List.mem_cons_of_mem f hf'))

theorem bmesh_fold_state_of_false (faces : List (List Nat)) (action : VisAction)
    (vert_test : Nat → Bool) (hz : ∀ v, vert_test v = false) :
    ∀ (ps : List (Nat × BMeshNode)) (acc : BMeshResult),
      (∀ p ∈ ps, ∀ f ∈ p.2.faceIndices, acc.state.faceHidden.getD f false
        = paint_is_bmesh_face_hidden (faces.getD f []) acc.state.vertHidden) →
      (ps.foldl (bmesh_node_step faces action vert_test) acc).state = acc.state := by
  intro ps
  induction ps with
  | nil => intro acc _; rfl
  | cons p ps ih =>
    intro acc hcons
    rw [List.foldl_cons]
    have hvh1 := bmesh_verts_pass_vertHidden_of_false action vert_test hz
      p.2.uniqueVerts ⟨acc.state.vertHidden, false, false⟩
    have hstep : bmesh_node_step faces action vert_test acc p
        = { bmesh_node_step faces action vert_test acc p with state := acc.state } := by
      unfold bmesh_node_step
      dsimp only
      rw [bmesh_verts_pass_vertHidden_of_false action vert_test hz,
        bmesh_verts_pass_vertHidden_of_false action vert_test hz]
      dsimp only
      rw [bmesh_faces_pass_id faces p.2.faceIndices _ _
        (hcons p (List.mem_cons_self p ps))]
    rw [hstep]
    exact ih _ (fun q hq f hf => hcons q (List.mem_cons_of_mem p hq) f hf)

/-! ## Claim C7 -/

/-- C7 corrected. Counterexample on the dynamic-topology representation:
with an everywhere-zero mask, a masked hide changes nothing - the flags
are untouched - yet the code pushes an undo record for every node (the
push happens before the per-vertex predicate loop, unconditionally). -/
theorem claim_C7_counterexample :
    (partialvis_masked_update_bmesh [] ⟨[false, false], []⟩ [⟨[0, 1], [], []⟩]
        VisAction.Hide [0, 0]).state = ⟨[false, false], []⟩ ∧
    (partialvis_masked_update_bmesh [] ⟨[false, false], []⟩ [⟨[0, 1], [], []⟩]
        VisAction.Hide [0, 0]).pushed ≠ [] := by
  have hz : ∀ v : Nat, (decide (([0, 0] : List ℚ).getD v 0 > 1 / 2)) = false := by
    intro v
    rw [decide_eq_false_iff_not]
    apply mask_getD_le
    intro q hq
    rcases List.mem_cons.mp hq with h | hq'
    · rw [h]; norm_num
    · rcases List.mem_cons.mp hq' with h | hq''
      · rw [h]; norm_num
      · exact absurd hq'' (List.not_mem_nil q)
  have hcons : ∀ p ∈ ([(0, (⟨[0, 1], [], []⟩ : BMeshNode))] : List (Nat × BMeshNode)),
      ∀ f ∈ p.2.faceIndices,
      ((⟨⟨[false, false], []⟩, [], [], []⟩ : BMeshResult)).state.faceHidden.getD f false
        = paint_is_bmesh_face_hidden (([] : List (List Nat)).getD f [])
            ((⟨⟨[false, false], []⟩, [], [], []⟩ : BMeshResult)).state.vertHidden := by
    intro p hp f hf
    have hp' := List.mem_singleton.mp hp
    subst hp'
    exact absurd hf (List.not_mem_nil f)
  refine ⟨bmesh_fold_state_of_false [] VisAction.Hide _ hz _ _ hcons, ?_⟩
  unfold partialvis_masked_update_bmesh
  rw [partialvis_update_bmesh_nodes_pushed]
  decide

theorem gridHiddenEnsure_getD (g : Grids) (i idx : Nat) :
    (g.gridHiddenEnsure.getD i []).getD idx false = g.sampleHidden i idx := by
  unfold Grids.gridHiddenEnsure Grids.sampleHidden
  cases g.grid_hidden with
  | some gh => rfl
  | none =>
    show ((List.replicate g.numGrids g.emptyGrid).getD i []).getD idx false = _
    rw [getD_replicate]
    by_cases hi : i < g.numGrids
    · rw [if_pos hi]
      unfold Grids.emptyGrid
      rw [getD_replicate_false]
      rfl
    · rw [if_neg hi]
      rfl

/-- C7 amended: a masked hide with an existing mask attribute that
nowhere exceeds 0.5 changes no element's hidden value; on the polygon
mesh and grid representations it also pushes no undo record and marks
nothing dirty, while on the dynamic topology representation it still
pushes an undo record for every node (but marks nothing dirty). -/
theorem claim_C7_masked_hide_all_zero :
    (∀ (m : Mesh) (nodes : List PBVHNodeMesh) (mask : List ℚ),
      m.sculpt_mask = some mask → (∀ q ∈ mask, ¬((1 : ℚ) / 2 < q)) →
      (partialvis_masked_update_mesh m VisAction.Hide nodes).pushed = [] ∧
      (partialvis_masked_update_mesh m VisAction.Hide nodes).dirty = [] ∧
      (∀ v, (partialvis_masked_update_mesh m VisAction.Hide nodes).mesh.vertHidden v
        = m.vertHidden v) ∧
      (partialvis_masked_update_mesh m VisAction.Hide nodes).mesh.hide_poly
        = m.hide_poly ∧
      (partialvis_masked_update_mesh m VisAction.Hide nodes).mesh.hide_edge
        = m.hide_edge) ∧
    (∀ (g : Grids) (nodes : List (List Nat)) (masks : List (List ℚ)),
      g.masks = some masks → (∀ gr ∈ masks, ∀ q ∈ gr, ¬((1 : ℚ) / 2 < q)) →
      (partialvis_masked_update_grids g VisAction.Hide nodes).pushed = [] ∧
      (partialvis_masked_update_grids g VisAction.Hide nodes).dirty = [] ∧
      (partialvis_masked_update_grids g VisAction.Hide nodes).multires_tagged = false ∧
      (∀ i idx,
        (partialvis_masked_update_grids g VisAction.Hide nodes).grids.sampleHidden i idx
          = g.sampleHidden i idx)) ∧
    (∀ (faces : List (List Nat)) (st : BMeshState) (nodes : List BMeshNode)
        (mask : List ℚ),
      (∀ q ∈ mask, ¬((1 : ℚ) / 2 < q)) →
      (∀ n ∈ nodes, ∀ f ∈ n.faceIndices, st.faceHidden.getD f false
        = paint_is_bmesh_face_hidden (faces.getD f []) st.vertHidden) →
      (partialvis_masked_update_bmesh faces st nodes VisAction.Hide mask).state = st ∧
      (partialvis_masked_update_bmesh faces st nodes VisAction.Hide mask).dirty = [] ∧
      (partialvis_masked_update_bmesh faces st nodes VisAction.Hide mask).pushed
        = List.range nodes.length) := by
  refine ⟨?_, ?_, ?_⟩
  · intro m nodes mask hm hz
    have hupd : partialvis_masked_update_mesh m VisAction.Hide nodes
        = vert_hide_update m nodes
            (masked_calc_hide mask (action_to_hide VisAction.Hide)) := by
      unfold partialvis_masked_update_mesh
      rw [if_neg (fun hc => VisAction.noConfusion hc.1), hm]
    have hid := vert_hide_update_noop m nodes
      (masked_calc_hide mask (action_to_hide VisAction.Hide))
      (fun n _ => masked_calc_hide_id mask _ hz n.uniqueVerts _
        (length_gatherIdx false m.hideVertSpan n.uniqueVerts))
    rw [hupd, hid]
    refine ⟨rfl, rfl, ?_, rfl, rfl⟩
    intro v
    show m.hideVertSpan.getD v false = m.vertHidden v
    exact hideVertSpan_getD m v
  · intro g nodes masks hm hz
    have hupd : partialvis_masked_update_grids g VisAction.Hide nodes
        = grid_hide_update g nodes
            (masked_grid_calc masks g.gridSize (action_to_hide VisAction.Hide)) := by
      unfold partialvis_masked_update_grids
      rw [hm]
    have hfold : node_update_fold g.emptyGrid
        (fun idxs olds => List.zipWith
          (masked_grid_calc masks g.gridSize (action_to_hide VisAction.Hide)) idxs olds)
        nodes g.gridHiddenEnsure = ⟨g.gridHiddenEnsure, [], false⟩ := by
      apply node_update_fold_noop
      intro n _
      exact zipWith_keep_snd _ (fun gi old => masked_grid_calc_id masks _ _ hz gi old) n _
        (length_gatherIdx _ _ n)
    have hres : partialvis_masked_update_grids g VisAction.Hide nodes
        = ⟨{ g with grid_hidden := some g.gridHiddenEnsure }, [], [], false, false⟩ := by
      rw [hupd]
      unfold grid_hide_update
      rw [hfold]
    rw [hres]
    refine ⟨rfl, rfl, rfl, ?_⟩
    intro i idx
    exact gridHiddenEnsure_getD g i idx
  · intro faces st nodes mask hz hcons
    have hz' : ∀ v : Nat, (decide (mask.getD v 0 > 1 / 2)) = false := by
      intro v
      rw [decide_eq_false_iff_not]
      exact mask_getD_le mask hz v
    refine ⟨?_, ?_, ?_⟩
    · exact bmesh_fold_state_of_false faces VisAction.Hide _ hz' nodes.enum
        ⟨st, [], [], []⟩
        (fun p hp f hf => hcons p.2 (snd_mem_of_mem_enumFrom nodes 0 p hp) f hf)
    · show (nodes.enum.foldl (bmesh_node_step faces VisAction.Hide _) ⟨st, [], [], []⟩).dirty
        = []
      rw [bmesh_fold_dirty]
      have hfil : nodes.enum.filter
          (fun p => (p.2.uniqueVerts ++ p.2.otherVerts).any
            (fun v => decide (mask.getD v 0 > 1 / 2))) = [] := by
        apply List.filter_eq_nil_iff.mpr
        intro p _
        intro hany
        rcases List.any_eq_true.mp hany with ⟨v, _, hv⟩
        rw [hz' v] at hv
        exact Bool.false_ne_true hv
      rw [hfil]
      rfl
    · exact partialvis_update_bmesh_nodes_pushed faces st nodes VisAction.Hide _

/-- C7 witness: the amended theorem applied on the triangle mesh with an
all-zero mask attribute and the two-vertex dynamic-topology object of the
counterexample. -/
theorem claim_C7_witness :
    (({ triMesh with sculpt_mask := some [0, 0, 0] } : Mesh).sculpt_mask
        = some [0, 0, 0] ∧
      (∀ q ∈ ([0, 0, 0] : List ℚ), ¬((1 : ℚ) / 2 < q)) ∧
      (partialvis_masked_update_mesh { triMesh with sculpt_mask := some [0, 0, 0] }
        VisAction.Hide [triNode]).pushed = []) ∧
    ((∀ q ∈ ([0, 0] : List ℚ), ¬((1 : ℚ) / 2 < q)) ∧
      (partialvis_masked_update_bmesh [] bmeshTwoState [bmeshTwoNode]
        VisAction.Hide [0, 0]).pushed = List.range 1) := by
  have hz3 : ∀ q ∈ ([0, 0, 0] : List ℚ), ¬((1 : ℚ) / 2 < q) := by
    intro q hq
    rcases List.mem_cons.mp hq with h | hq'
    · rw [h]; norm_num
    · rcases List.mem_cons.mp hq' with h | hq''
      · rw [h]; norm_num
      · rcases List.mem_cons.mp hq'' with h | hq3
        · rw [h]; norm_num
        · exact absurd hq3 (List.not_mem_nil q)
  have hz2 : ∀ q ∈ ([0, 0] : List ℚ), ¬((1 : ℚ) / 2 < q) := by
    intro q hq
    rcases List.mem_cons.mp hq with h | hq'
    · rw [h]; norm_num
    · rcases List.mem_cons.mp hq' with h | hq''
      · rw [h]; norm_num
      · exact absurd hq'' (List.not_mem_nil q)
  refine ⟨⟨rfl, hz3, ?_⟩, hz2, ?_⟩
  · exact (claim_C7_masked_hide_all_zero.1
      { triMesh with sculpt_mask := some [0, 0, 0] } [triNode] [0, 0, 0] rfl hz3).1
  · exact (claim_C7_masked_hide_all_zero.2.2 [] bmeshTwoState [bmeshTwoNode] [0, 0]
      hz2 (fun n hn f hf => by
        rcases List.mem_singleton.mp hn with rfl
        exact absurd hf (List.not_mem_nil f))).2.2

/-! ## Support lemmas for the predicate-update characterisation (claim C1) -/

theorem map_ne_map_iff (f g : Nat → α) (idx : List Nat) :
    idx.map f ≠ idx.map g ↔ ∃ v ∈ idx, f v ≠ g v := by
  constructor
  · intro h
    by_contra hc
    push_neg at hc
    exact h (List.map_eq_map_iff.mpr hc)
  · rintro ⟨v, hv, hne⟩ h
    exact hne (List.map_eq_map_iff.mp h v hv)

theorem getD_map_of_lt (f : β → α) (l : List β) (i : Nat) (h : i < l.length)
    (d : α) (db : β) :
    (l.map f).getD i d = f (l.getD i db) := by
  rw [List.getD_eq_getElem?_getD, List.getElem?_map, List.getElem?_eq_getElem h,
    List.getD_eq_getElem?_getD, List.getElem?_eq_getElem h]
  rfl

theorem getD_eq_getD_of_lt (l : List α) (i : Nat) (d d' : α) (h : i < l.length) :
    l.getD i d = l.getD i d' := by
  rw [List.getD_eq_getElem?_getD, List.getElem?_eq_getElem h,
    List.getD_eq_getElem?_getD, List.getElem?_eq_getElem h]
  rfl

theorem getD_mem_of_lt (l : List α) (i : Nat) (d : α) (h : i < l.length) :
    l.getD i d ∈ l := by
  rw [List.getD_eq_getElem?_getD, List.getElem?_eq_getElem h]
  exact List.getElem_mem h

theorem hideVertSpan_length (m : Mesh)
    (hwf : ∀ l ∈ m.hide_vert, l.length = m.numVerts) :
    m.hideVertSpan.length = m.numVerts := by
  unfold Mesh.hideVertSpan
  cases hv : m.hide_vert with
  | none => exact List.length_replicate _ _
  | some l => exact hwf l (Option.mem_def.mpr hv)

theorem hidePolySpan_length (m : Mesh)
    (hwf : ∀ l ∈ m.hide_poly, l.length = m.faces.length) :
    m.hidePolySpan.length = m.faces.length := by
  unfold Mesh.hidePolySpan
  cases hp : m.hide_poly with
  | none => exact List.length_replicate _ _
  | some l => exact hwf l (Option.mem_def.mpr hp)

/-- The changed/unchanged dichotomy of the pass, folded into one fact:
a node's gathered values in the final store differ from the initial ones
exactly when the node's recompute differed from its snapshot. -/
theorem node_update_fold_changed_iff [DecidableEq α] (d : α)
    (compute : List Nat → List α → List α)
    (nodes : List (List Nat)) (store : List α)
    (hlen : ∀ idx (olds : List α), olds.length = idx.length →
      (compute idx olds).length = olds.length)
    (hnd : ∀ n ∈ nodes, n.Nodup)
    (hb : ∀ n ∈ nodes, ∀ i ∈ n, i < store.length)
    (hdisj : nodes.Pairwise (fun a b => ∀ x ∈ a, x ∉ b)) :
    ∀ m ∈ nodes,
      (nodeComputeChanged d compute store m ↔
        gatherIdx d (node_update_fold d compute nodes store).store m
          ≠ gatherIdx d store m) := by
  intro m hm
  have hc := (node_update_fold_spec d compute nodes store hlen hnd hb hdisj).2.2.1 m hm
  constructor
  · intro hch
    rw [hc, if_pos hch]
    exact hch
  · intro hne
    by_contra hch
    rw [hc, if_neg hch] at hne
    exact hne rfl

theorem vert_hide_update_proj (m : Mesh) (nodes : List PBVHNodeMesh)
    (calc_hide : List Nat → List Bool → List Bool) :
    (vert_hide_update m nodes calc_hide).pushed
      = (node_update_fold false calc_hide (nodes.map (·.uniqueVerts))
          m.hideVertSpan).pushed ∧
    (vert_hide_update m nodes calc_hide).mesh.hide_vert
      = some (node_update_fold false calc_hide (nodes.map (·.uniqueVerts))
          m.hideVertSpan).store := by
  unfold vert_hide_update
  dsimp only
  by_cases h : (node_update_fold false calc_hide (nodes.map (·.uniqueVerts))
      m.hideVertSpan).any_changed = true
  · rw [if_pos h]
    exact ⟨rfl, rfl⟩
  · rw [if_neg h]
    exact ⟨rfl, rfl⟩

theorem nodesWFMesh_vert_transfer (m : Mesh) (nodes : List PBVHNodeMesh)
    (hwf : Mesh.WF m) (hn : nodesWFMesh m nodes) :
    (∀ n ∈ nodes.map (·.uniqueVerts), n.Nodup) ∧
    (∀ n ∈ nodes.map (·.uniqueVerts), ∀ i ∈ n, i < m.hideVertSpan.length) := by
  constructor
  · intro n hn'
    rcases List.mem_map.mp hn' with ⟨node, hnode, he⟩
    exact he ▸ hn.1 node hnode
  · intro n hn' i hi
    rcases List.mem_map.mp hn' with ⟨node, hnode, he⟩
    rw [hideVertSpan_length m hwf.1]
    exact hn.2.1 node hnode i (he ▸ hi)

/-- The undo pushes of `vert_hide_update`, characterised against the
visible outcome: node `i` is pushed exactly when one of its unique
vertices' hidden flags after the update differs from its value before. -/
theorem vert_hide_update_pushed_iff (m : Mesh) (nodes : List PBVHNodeMesh)
    (calc_hide : List Nat → List Bool → List Bool)
    (hwf : Mesh.WF m) (hn : nodesWFMesh m nodes)
    (hlen : ∀ verts (olds : List Bool), olds.length = verts.length →
      (calc_hide verts olds).length = olds.length) :
    ∀ i, i < nodes.length →
      (i ∈ (vert_hide_update m nodes calc_hide).pushed ↔
        ∃ v ∈ (nodes.getD i ⟨[], [], []⟩).uniqueVerts,
          (vert_hide_update m nodes calc_hide).mesh.vertHidden v ≠ m.vertHidden v) := by
  intro i hi
  obtain ⟨hnd, hb⟩ := nodesWFMesh_vert_transfer m nodes hwf hn
  have hdisj := hn.2.2.1
  have hspec := node_update_fold_spec false calc_hide (nodes.map (·.uniqueVerts))
    m.hideVertSpan hlen hnd hb hdisj
  obtain ⟨hpush, hstore⟩ := vert_hide_update_proj m nodes calc_hide
  have hilen : i < (nodes.map (·.uniqueVerts)).length := by
    rw [List.length_map]
    exact hi
  have hgetD : (nodes.map (·.uniqueVerts)).getD i []
      = (nodes.getD i ⟨[], [], []⟩).uniqueVerts :=
    getD_map_of_lt _ nodes i hi [] ⟨[], [], []⟩
  have hmemD : (nodes.map (·.uniqueVerts)).getD i [] ∈ nodes.map (·.uniqueVerts) :=
    getD_mem_of_lt _ i [] hilen
  have hchiff := node_update_fold_changed_iff false calc_hide
    (nodes.map (·.uniqueVerts)) m.hideVertSpan hlen hnd hb hdisj _ hmemD
  have hvert : ∀ v, (vert_hide_update m nodes calc_hide).mesh.vertHidden v
      = (node_update_fold false calc_hide (nodes.map (·.uniqueVerts))
          m.hideVertSpan).store.getD v false := by
    intro v
    unfold Mesh.vertHidden
    rw [hstore]
    rfl
  constructor
  · intro hmem
    rw [hpush, hspec.2.2.2.1] at hmem
    rcases (mem_pushedSpec false calc_hide m.hideVertSpan _ 0 i).mp hmem
      with ⟨j, hj, hij, hch⟩
    have hji : j = i := by omega
    subst hji
    have hne := hchiff.mp hch
    rcases (map_ne_map_iff _ _ _).mp hne with ⟨v, hv, hvne⟩
    rw [hgetD] at hv
    refine ⟨v, hv, ?_⟩
    rw [hvert v, ← hideVertSpan_getD m v]
    exact hvne
  · rintro ⟨v, hv, hvne⟩
    rw [hpush, hspec.2.2.2.1]
    apply (mem_pushedSpec false calc_hide m.hideVertSpan _ 0 i).mpr
    refine ⟨i, hilen, by omega, ?_⟩
    apply hchiff.mpr
    apply (map_ne_map_iff _ _ _).mpr
    rw [hvert v, ← hideVertSpan_getD m v] at hvne
    refine ⟨v, by rw [hgetD]; exact hv, hvne⟩

theorem vert_hide_update_dirty_proj (m : Mesh) (nodes : List PBVHNodeMesh)
    (calc_hide : List Nat → List Bool → List Bool) :
    ((node_update_fold false calc_hide (nodes.map (·.uniqueVerts))
        m.hideVertSpan).any_changed = true →
      (vert_hide_update m nodes calc_hide).dirty
        = (flush_face_changes_node m.faces nodes
            (node_update_fold false calc_hide (nodes.map (·.uniqueVerts))
              m.hideVertSpan).store m.hidePolySpan).pushed ∧
      (vert_hide_update m nodes calc_hide).mesh.hide_poly
        = some (flush_face_changes_node m.faces nodes
            (node_update_fold false calc_hide (nodes.map (·.uniqueVerts))
              m.hideVertSpan).store m.hidePolySpan).store) ∧
    (¬ (node_update_fold false calc_hide (nodes.map (·.uniqueVerts))
        m.hideVertSpan).any_changed = true →
      (vert_hide_update m nodes calc_hide).dirty = [] ∧
      (vert_hide_update m nodes calc_hide).mesh.hide_poly = m.hide_poly) := by
  unfold vert_hide_update
  dsimp only
  constructor
  · intro h
    rw [if_pos h]
    exact ⟨rfl, rfl⟩
  · intro h
    rw [if_neg h]
    exact ⟨rfl, rfl⟩

theorem nodesWFMesh_face_transfer (m : Mesh) (nodes : List PBVHNodeMesh)
    (hwf : Mesh.WF m) (hn : nodesWFMesh m nodes) :
    (∀ n ∈ nodes.map (·.faceIndices), n.Nodup) ∧
    (∀ n ∈ nodes.map (·.faceIndices), ∀ f ∈ n, f < m.hidePolySpan.length) := by
  constructor
  · intro n hn'
    rcases List.mem_map.mp hn' with ⟨node, hnode, he⟩
    exact he ▸ hn.2.2.2.1 node hnode
  · intro n hn' f hf
    rcases List.mem_map.mp hn' with ⟨node, hnode, he⟩
    rw [hidePolySpan_length m hwf.2.1]
    exact hn.2.2.2.2.1 node hnode f (he ▸ hf)

theorem flush_hlen (rule : Nat → Bool) :
    ∀ (idxs : List Nat) (olds : List Bool), olds.length = idxs.length →
      (idxs.map rule).length = olds.length := by
  intro idxs olds h
  rw [List.length_map, h]

/-- Every node face ends the node-scoped face flush with the canonical
OR-of-corner-vertices value, whether or not the node was marked. -/
theorem flush_face_changes_node_values (m : Mesh) (nodes : List PBVHNodeMesh)
    (hv : List Bool) (hwf : Mesh.WF m) (hn : nodesWFMesh m nodes) :
    ∀ node ∈ nodes, ∀ f ∈ node.faceIndices,
      (flush_face_changes_node m.faces nodes hv m.hidePolySpan).store.getD f false
        = face_hide_from_vert (m.faces.getD f []) hv := by
  intro node hnode f hf
  obtain ⟨hnd, hb⟩ := nodesWFMesh_face_transfer m nodes hwf hn
  have hspec := node_update_fold_spec false
    (fun idxs _ => idxs.map (fun f => face_hide_from_vert (m.faces.getD f []) hv))
    (nodes.map (·.faceIndices)) m.hidePolySpan
    (flush_hlen _) hnd hb hn.2.2.2.2.2
  have hmem : node.faceIndices ∈ nodes.map (·.faceIndices) :=
    List.mem_map.mpr ⟨node, hnode, rfl⟩
  have hc := hspec.2.2.1 node.faceIndices hmem
  by_cases hch : nodeComputeChanged false
      (fun idxs _ => idxs.map (fun f => face_hide_from_vert (m.faces.getD f []) hv))
      m.hidePolySpan node.faceIndices
  · rw [if_pos hch] at hc
    exact List.map_eq_map_iff.mp hc f hf
  · rw [if_neg hch] at hc
    unfold nodeComputeChanged at hch
    rw [not_not] at hch
    have h1 := List.map_eq_map_iff.mp hc f hf
    have h2 := List.map_eq_map_iff.mp hch f hf
    exact h1.trans h2.symm

/-- The dirty marks of `vert_hide_update`: node `i` is marked exactly
when one of its faces' hidden flags after the update differs from its
value before. -/
theorem vert_hide_update_dirty_iff (m : Mesh) (nodes : List PBVHNodeMesh)
    (calc_hide : List Nat → List Bool → List Bool)
    (hwf : Mesh.WF m) (hn : nodesWFMesh m nodes)
    (hlen : ∀ verts (olds : List Bool), olds.length = verts.length →
      (calc_hide verts olds).length = olds.length) :
    ∀ i, i < nodes.length →
      (i ∈ (vert_hide_update m nodes calc_hide).dirty ↔
        ∃ f ∈ (nodes.getD i ⟨[], [], []⟩).faceIndices,
          (vert_hide_update m nodes calc_hide).mesh.faceHidden f ≠ m.faceHidden f) := by
  intro i hi
  by_cases hch : (node_update_fold false calc_hide (nodes.map (·.uniqueVerts))
      m.hideVertSpan).any_changed = true
  · obtain ⟨hdirty, hpoly⟩ := (vert_hide_update_dirty_proj m nodes calc_hide).1 hch
    obtain ⟨hndF, hbF⟩ := nodesWFMesh_face_transfer m nodes hwf hn
    have hspec := node_update_fold_spec false
      (fun idxs _ => idxs.map (fun f => face_hide_from_vert (m.faces.getD f [])
        (node_update_fold false calc_hide (nodes.map (·.uniqueVerts))
          m.hideVertSpan).store))
      (nodes.map (·.faceIndices)) m.hidePolySpan
      (flush_hlen _) hndF hbF hn.2.2.2.2.2
    have hilen : i < (nodes.map (·.faceIndices)).length := by
      rw [List.length_map]
      exact hi
    have hgetD : (nodes.map (·.faceIndices)).getD i []
        = (nodes.getD i ⟨[], [], []⟩).faceIndices :=
      getD_map_of_lt _ nodes i hi [] ⟨[], [], []⟩
    have hvals := flush_face_changes_node_values m nodes
      (node_update_fold false calc_hide (nodes.map (·.uniqueVerts))
        m.hideVertSpan).store hwf hn (nodes.getD i ⟨[], [], []⟩)
      (getD_mem_of_lt nodes i ⟨[], [], []⟩ hi)
    have hface : ∀ f, (vert_hide_update m nodes calc_hide).mesh.faceHidden f
        = (flush_face_changes_node m.faces nodes
            (node_update_fold false calc_hide (nodes.map (·.uniqueVerts))
              m.hideVertSpan).store m.hidePolySpan).store.getD f false := by
      intro f
      unfold Mesh.faceHidden
      rw [hpoly]
      rfl
    rw [hdirty]
    show i ∈ (node_update_fold false _ (nodes.map (·.faceIndices)) m.hidePolySpan).pushed
      ↔ _
    rw [hspec.2.2.2.1]
    rw [mem_pushedSpec]
    constructor
    · rintro ⟨j, hj, hij, hchF⟩
      have hji : j = i := by omega
      rw [hji] at hchF
      unfold nodeComputeChanged at hchF
      rcases (map_ne_map_iff _ _ _).mp hchF with ⟨f, hf, hfne⟩
      have hf' : f ∈ (nodes.getD i ⟨[], [], []⟩).faceIndices := by
        rw [← hgetD]
        exact hf
      refine ⟨f, hf', ?_⟩
      rw [hface f, hvals f hf', ← hidePolySpan_getD m f]
      exact hfne
    · rintro ⟨f, hf, hfne⟩
      refine ⟨i, hilen, by omega, ?_⟩
      unfold nodeComputeChanged
      apply (map_ne_map_iff _ _ _).mpr
      rw [hface f, hvals f hf, ← hidePolySpan_getD m f] at hfne
      refine ⟨f, by rw [hgetD]; exact hf, hfne⟩
  · obtain ⟨hdirty, hpoly⟩ := (vert_hide_update_dirty_proj m nodes calc_hide).2 hch
    rw [hdirty]
    constructor
    · intro hmem
      exact absurd hmem (List.not_mem_nil i)
    · rintro ⟨f, _, hfne⟩
      apply absurd _ hfne
      unfold Mesh.faceHidden
      rw [hpoly]

/-- The undo pushes of `grid_hide_update`: node `i` is pushed exactly
when one of its grids' bit masks after the update differs from before,
and the dirty marks coincide with the pushes. -/
theorem grid_hide_update_pushed_iff (g : Grids) (nodes : List (List Nat))
    (calc_hide : Nat → List Bool → List Bool)
    (hnd : ∀ n ∈ nodes, n.Nodup)
    (hb : ∀ n ∈ nodes, ∀ i ∈ n, i < g.gridHiddenEnsure.length)
    (hdisj : nodes.Pairwise (fun a b => ∀ x ∈ a, x ∉ b)) :
    (∀ i, i < nodes.length →
      (i ∈ (grid_hide_update g nodes calc_hide).pushed ↔
        ∃ gi ∈ nodes.getD i [],
          ((grid_hide_update g nodes calc_hide).grids.grid_hidden.getD []).getD gi
              g.emptyGrid
            ≠ g.gridHiddenEnsure.getD gi g.emptyGrid)) ∧
    (grid_hide_update g nodes calc_hide).dirty
      = (grid_hide_update g nodes calc_hide).pushed := by
  have hlen : ∀ (idxs : List Nat) (olds : List (List Bool)),
      olds.length = idxs.length →
      (List.zipWith calc_hide idxs olds).length = olds.length := by
    intro idxs olds h
    rw [List.length_zipWith]
    omega
  have hspec := node_update_fold_spec g.emptyGrid
    (fun idxs olds => List.zipWith calc_hide idxs olds) nodes g.gridHiddenEnsure
    hlen hnd hb hdisj
  have hchiff := node_update_fold_changed_iff g.emptyGrid
    (fun idxs olds => List.zipWith calc_hide idxs olds) nodes g.gridHiddenEnsure
    hlen hnd hb hdisj
  refine ⟨?_, rfl⟩
  intro i hi
  have hmemD : nodes.getD i [] ∈ nodes := getD_mem_of_lt nodes i [] hi
  show i ∈ (node_update_fold g.emptyGrid _ nodes g.gridHiddenEnsure).pushed ↔ _
  rw [hspec.2.2.2.1, mem_pushedSpec]
  constructor
  · rintro ⟨j, hj, hij, hch⟩
    have hji : j = i := by omega
    rw [hji] at hch
    have hne := (hchiff _ hmemD).mp hch
    rcases (map_ne_map_iff _ _ _).mp hne with ⟨gi, hgi, hgne⟩
    exact ⟨gi, hgi, hgne⟩
  · rintro ⟨gi, hgi, hgne⟩
    refine ⟨i, hi, by omega, ?_⟩
    apply (hchiff _ hmemD).mpr
    exact (map_ne_map_iff _ _ _).mpr ⟨gi, hgi, hgne⟩

theorem partialvis_update_bmesh_nodes_dirty (faces : List (List Nat))
    (st : BMeshState) (nodes : List BMeshNode) (action : VisAction)
    (vert_test : Nat → Bool) :
    (partialvis_update_bmesh_nodes faces st nodes action vert_test).dirty
      = (nodes.enum.filter (fun p =>
          (p.2.uniqueVerts ++ p.2.otherVerts).any vert_test)).map Prod.fst := by
  unfold partialvis_update_bmesh_nodes
  rw [bmesh_fold_dirty]
  rfl

/-! ## Claim C1 -/

/-- C1 corrected. Counterexample on the dynamic-topology representation:
one node owning one already-hidden vertex, action `Hide`, an always-true
predicate.  No flag changes (the state is untouched), yet an undo record
is pushed (unconditionally, before the vertex pass) and the node is
marked dirty (`any_changed` is raised by the mere predicate match). -/
theorem claim_C1_counterexample :
    (partialvis_update_bmesh_nodes [] ⟨[true], []⟩ [⟨[0], [], []⟩] VisAction.Hide
        (fun _ => true)).state = ⟨[true], []⟩ ∧
    (partialvis_update_bmesh_nodes [] ⟨[true], []⟩ [⟨[0], [], []⟩] VisAction.Hide
        (fun _ => true)).pushed ≠ [] ∧
    (partialvis_update_bmesh_nodes [] ⟨[true], []⟩ [⟨[0], [], []⟩] VisAction.Hide
        (fun _ => true)).dirty ≠ [] := by
  decide

/-- C1 amended: for the polygon-mesh and subdivision-grid
representations, the predicate-driven update pushes an undo record for a
node and marks it dirty exactly when one of the node's elements' hidden
flags actually changes (vertices for the undo push, faces for the dirty
mark on the mesh; grid bit masks for both on grids).  For the
dynamic-topology representation an undo record is pushed for every node
unconditionally, and a node is marked dirty exactly when the predicate
matches one of its vertices - even when no flag actually changes. -/
theorem claim_C1_predicate_update_change_detection :
    (∀ (m : Mesh) (nodes : List PBVHNodeMesh)
        (calc_hide : List Nat → List Bool → List Bool),
      Mesh.WF m → nodesWFMesh m nodes →
      (∀ verts (olds : List Bool), olds.length = verts.length →
        (calc_hide verts olds).length = olds.length) →
      ∀ i, i < nodes.length →
        ((i ∈ (vert_hide_update m nodes calc_hide).pushed ↔
          ∃ v ∈ (nodes.getD i ⟨[], [], []⟩).uniqueVerts,
            (vert_hide_update m nodes calc_hide).mesh.vertHidden v
              ≠ m.vertHidden v) ∧
         (i ∈ (vert_hide_update m nodes calc_hide).dirty ↔
          ∃ f ∈ (nodes.getD i ⟨[], [], []⟩).faceIndices,
            (vert_hide_update m nodes calc_hide).mesh.faceHidden f
              ≠ m.faceHidden f))) ∧
    (∀ (g : Grids) (nodes : List (List Nat)) (calc_hide : Nat → List Bool → List Bool),
      (∀ n ∈ nodes, n.Nodup) →
      (∀ n ∈ nodes, ∀ i ∈ n, i < g.gridHiddenEnsure.length) →
      nodes.Pairwise (fun a b => ∀ x ∈ a, x ∉ b) →
      (∀ i, i < nodes.length →
        (i ∈ (grid_hide_update g nodes calc_hide).pushed ↔
          ∃ gi ∈ nodes.getD i [],
            ((grid_hide_update g nodes calc_hide).grids.grid_hidden.getD []).getD gi
                g.emptyGrid
              ≠ g.gridHiddenEnsure.getD gi g.emptyGrid)) ∧
      (grid_hide_update g nodes calc_hide).dirty
        = (grid_hide_update g nodes calc_hide).pushed) ∧
    (∀ (faces : List (List Nat)) (st : BMeshState) (nodes : List BMeshNode)
        (action : VisAction) (vert_test : Nat → Bool),
      (partialvis_update_bmesh_nodes faces st nodes action vert_test).pushed
          = List.range nodes.length ∧
      (partialvis_update_bmesh_nodes faces st nodes action vert_test).dirty
          = (nodes.enum.filter (fun p =>
              (p.2.uniqueVerts ++ p.2.otherVerts).any vert_test)).map Prod.fst) := by
  refine ⟨?_, ?_, ?_⟩
  · intro m nodes calc_hide hwf hn hlen i hi
    exact ⟨vert_hide_update_pushed_iff m nodes calc_hide hwf hn hlen i hi,
      vert_hide_update_dirty_iff m nodes calc_hide hwf hn hlen i hi⟩
  · intro g nodes calc_hide hnd hb hdisj
    exact grid_hide_update_pushed_iff g nodes calc_hide hnd hb hdisj
  · intro faces st nodes action vert_test
    exact ⟨partialvis_update_bmesh_nodes_pushed faces st nodes action vert_test,
      partialvis_update_bmesh_nodes_dirty faces st nodes action vert_test⟩

/-- C1 witness: the amended characterisation applied on the triangle
fixture with the fill-`true` recompute (a hide-all): the single node is
pushed, and indeed vertex 1 changes from visible to hidden. -/
theorem claim_C1_witness :
    Mesh.WF triMesh ∧ nodesWFMesh triMesh [triNode] ∧
    (0 ∈ (vert_hide_update triMesh [triNode]
        (fun _ olds => olds.map (fun _ => true))).pushed ↔
      ∃ v ∈ (([triNode] : List PBVHNodeMesh).getD 0 ⟨[], [], []⟩).uniqueVerts,
        (vert_hide_update triMesh [triNode]
          (fun _ olds => olds.map (fun _ => true))).mesh.vertHidden v
          ≠ triMesh.vertHidden v) :=
  ⟨by decide, by decide,
   (claim_C1_predicate_update_change_detection.1 triMesh [triNode]
     (fun _ olds => olds.map (fun _ => true)) (by decide) (by decide)
     (fun verts olds _ => List.length_map olds _) 0 (by decide)).1⟩

/-! ## Support lemmas for the propagation loop (claims C3 and C4) -/

theorem affect_fold_getD (value : Bool) (face : List Nat) (read_buffer : List Bool) :
    ∀ (js : List Nat) (wb : List Bool) (v : Nat),
      ((js.foldl (fun wb j =>
          if read_buffer.getD (face.getD j 0) false ≠ value then wb
          else
            (wb.set (face.getD (face_corner_prev face j) 0) value).set
              (face.getD (face_corner_next face j) 0) value) wb).getD v false)
        = if v < wb.length ∧ (js.any (fun j =>
              (read_buffer.getD (face.getD j 0) false == value) &&
              (v == face.getD (face_corner_prev face j) 0
                || v == face.getD (face_corner_next face j) 0))) = true
          then value else wb.getD v false := by
  intro js
  induction js with
  | nil =>
    intro wb v
    simp
  | cons j js ih =>
    intro wb v
    rw [List.foldl_cons, List.any_cons]
    by_cases hread : read_buffer.getD (face.getD j 0) false = value
    · rw [if_neg (fun hne => hne hread), ih _ v, List.length_set, List.length_set,
        beq_iff_eq.mpr hread, Bool.true_and]
      by_cases hrest : v < wb.length ∧ (js.any (fun j =>
          (read_buffer.getD (face.getD j 0) false == value) &&
          (v == face.getD (face_corner_prev face j) 0
            || v == face.getD (face_corner_next face j) 0))) = true
      · rw [if_pos hrest, if_pos ⟨hrest.1, by rw [hrest.2, Bool.or_true]⟩]
      · rw [if_neg hrest]
        by_cases hv : v < wb.length
        · have hany : (js.any (fun j =>
              (read_buffer.getD (face.getD j 0) false == value) &&
              (v == face.getD (face_corner_prev face j) 0
                || v == face.getD (face_corner_next face j) 0))) = false := by
            rw [← Bool.not_eq_true]
            exact fun ht => hrest ⟨hv, ht⟩
          rw [hany, Bool.or_false]
          by_cases hnext : v = face.getD (face_corner_next face j) 0
          · rw [hnext, getD_set_self _ _ _ _ (by rw [List.length_set]; exact hnext ▸ hv),
              if_pos ⟨hnext ▸ hv, by rw [beq_self_eq_true, Bool.or_true]⟩]
          · rw [getD_set_ne _ _ _ (fun he => hnext he.symm)]
            by_cases hprev : v = face.getD (face_corner_prev face j) 0
            · rw [hprev, getD_set_self _ _ _ _ (hprev ▸ hv),
                if_pos ⟨hprev ▸ hv, by rw [beq_self_eq_true, Bool.true_or]⟩]
            · have hcon : ¬(v < wb.length ∧
                  (v == face.getD (face_corner_prev face j) 0
                    || v == face.getD (face_corner_next face j) 0) = true) :=
                fun hc => (Bool.or_eq_true_iff.mp hc.2).elim
                  (fun h => hprev (beq_iff_eq.mp h))
                  (fun h => hnext (beq_iff_eq.mp h))
              rw [getD_set_ne _ _ _ (fun he => hprev he.symm), if_neg hcon]
        · have hge : wb.length ≤ v := Nat.le_of_not_lt hv
          rw [List.getD_eq_default _ _ (by rw [List.length_set, List.length_set]; exact hge),
            List.getD_eq_default _ _ hge, if_neg (fun hc => hv hc.1)]
    · rw [if_pos hread, ih wb v, beq_eq_false_iff_ne.mpr hread, Bool.false_and,
        Bool.false_or]

theorem affect_fold_length (value : Bool) (face : List Nat) (rb : List Bool) :
    ∀ (js : List Nat) (wb : List Bool),
      (js.foldl (fun wb j =>
          if rb.getD (face.getD j 0) false ≠ value then wb
          else
            (wb.set (face.getD (face_corner_prev face j) 0) value).set
              (face.getD (face_corner_next face j) 0) value) wb).length = wb.length := by
  intro js
  induction js with
  | nil => intro wb; rfl
  | cons j js ih =>
    intro wb
    rw [List.foldl_cons]
    by_cases h : rb.getD (face.getD j 0) false ≠ value
    · rw [if_pos h, ih]
    · rw [if_neg h, ih, List.length_set, List.length_set]

theorem length_affect_visibility_mesh (value : Bool) (face : List Nat)
    (rb wb : List Bool) :
    (affect_visibility_mesh value face rb wb).length = wb.length :=
  affect_fold_length value face rb (List.range face.length) wb

theorem affect_visibility_mesh_getD (value : Bool) (face : List Nat)
    (rb wb : List Bool) (v : Nat) :
    (affect_visibility_mesh value face rb wb).getD v false
      = if v < wb.length ∧ corner_spreads value face rb v = true
        then value else wb.getD v false :=
  affect_fold_getD value face rb (List.range face.length) wb v

theorem propagate_fold_getD (hide_poly rb : List Bool) (value : Bool) :
    ∀ (ps : List (Nat × List Nat)) (wb : List Bool) (v : Nat),
      ((ps.foldl (fun wb p =>
          if hide_poly.getD p.1 false then
            affect_visibility_mesh value p.2 rb wb
          else wb) wb).getD v false)
        = if v < wb.length ∧ (ps.any (fun p =>
              hide_poly.getD p.1 false && corner_spreads value p.2 rb v)) = true
          then value else wb.getD v false := by
  intro ps
  induction ps with
  | nil =>
    intro wb v
    simp
  | cons p ps ih =>
    intro wb v
    rw [List.foldl_cons, List.any_cons]
    by_cases hhp : hide_poly.getD p.1 false = true
    · rw [if_pos hhp, ih, length_affect_visibility_mesh, hhp, Bool.true_and]
      by_cases hrest : v < wb.length ∧ (ps.any (fun p =>
          hide_poly.getD p.1 false && corner_spreads value p.2 rb v)) = true
      · rw [if_pos hrest, if_pos ⟨hrest.1, by rw [hrest.2, Bool.or_true]⟩]
      · rw [if_neg hrest, affect_visibility_mesh_getD]
        by_cases hv : v < wb.length
        · have hany : (ps.any (fun p =>
              hide_poly.getD p.1 false && corner_spreads value p.2 rb v)) = false := by
            rw [← Bool.not_eq_true]
            exact fun ht => hrest ⟨hv, ht⟩
          rw [hany, Bool.or_false]
        · have h1 : ¬(v < wb.length ∧ corner_spreads value p.2 rb v = true) :=
            fun hc => hv hc.1
          have h2 : ¬(v < wb.length ∧ (corner_spreads value p.2 rb v
              || ps.any (fun p =>
                hide_poly.getD p.1 false && corner_spreads value p.2 rb v)) = true) :=
            fun hc => hv hc.1
          rw [if_neg h1, if_neg h2]
    · have hf : hide_poly.getD p.1 false = false := Bool.eq_false_iff.mpr hhp
      rw [if_neg hhp, ih, hf, Bool.false_and, Bool.false_or]

theorem propagate_iteration_getD (faces : List (List Nat)) (hide_poly : List Bool)
    (action : VisAction) (read_buffer write_buffer : List Bool) (v : Nat) :
    (propagate_iteration faces hide_poly action read_buffer write_buffer).getD v false
      = if v < write_buffer.length ∧
            iteration_affects faces hide_poly (action_to_hide action) read_buffer v = true
        then action_to_hide action else write_buffer.getD v false :=
  propagate_fold_getD hide_poly read_buffer (action_to_hide action) faces.enum
    write_buffer v

/-- C4 (amended): in each iteration of the polygon-mesh grow/shrink pass
the faces processed are exactly those whose current hidden flag is `true`
- for both actions, not the faces whose flag equals the action's hide
value - and processing a face writes the target value to the corner-loop
predecessor and successor vertices of every corner currently reading the
target value: the write buffer after one face loop holds the target value
exactly at the in-range vertices so reachable (`iteration_affects`, built
from `corner_spreads`), and is unchanged elsewhere. -/
theorem claim_C4_iteration_filter_and_spread (faces : List (List Nat))
    (hide_poly : List Bool) (action : VisAction)
    (read_buffer write_buffer : List Bool) (v : Nat) :
    (propagate_iteration faces hide_poly action read_buffer write_buffer).getD v false
      = if v < write_buffer.length ∧
            iteration_affects faces hide_poly (action_to_hide action) read_buffer v = true
        then action_to_hide action else write_buffer.getD v false :=
  propagate_iteration_getD faces hide_poly action read_buffer write_buffer v

/-- C4 counterexample: on a single hidden triangle with one hidden vertex
and the `Show` action, the source's face loop (which processes faces with
a `true` hidden flag) differs from the loop the claim describes (which
would process the faces whose flag equals the action's hide value,
i.e. the visible faces for `Show`): the former reveals the remaining
vertices, the latter touches nothing. -/
theorem claim_C4_counterexample :
    propagate_iteration [[0, 1, 2]] [true] VisAction.Show
        [true, false, false] [true, false, false]
      ≠ propagate_iteration_specFilter [[0, 1, 2]] [true] VisAction.Show
        [true, false, false] [true, false, false] := by
  decide

theorem propagate_iteration_value_or (faces : List (List Nat)) (hide_poly : List Bool)
    (action : VisAction) (rb wb : List Bool) (v : Nat) :
    (propagate_iteration faces hide_poly action rb wb).getD v false
        = action_to_hide action ∨
    (propagate_iteration faces hide_poly action rb wb).getD v false
        = wb.getD v false := by
  rw [propagate_iteration_getD]
  by_cases h : v < wb.length ∧
      iteration_affects faces hide_poly (action_to_hide action) rb v = true
  · rw [if_pos h]
    exact Or.inl rfl
  · rw [if_neg h]
    exact Or.inr rfl

theorem propagate_vertex_visibility_succ (faces : List (List Nat)) (b : DualBuffer)
    (hp : List Bool) (action : VisAction) (n : Nat) :
    propagate_vertex_visibility faces b hp action (n + 1)
      = (let st := propagate_vertex_visibility faces b hp action n
         let wb := propagate_iteration faces st.2 action
           (st.1.read_buffer n) (st.1.write_buffer n)
         (if n % 2 = 0 then { st.1 with back := wb } else { st.1 with front := wb },
          flush_face_changes faces wb)) := by
  unfold propagate_vertex_visibility
  rw [List.range_succ, List.foldl_append, List.foldl_cons, List.foldl_nil]

/-- Every intermediate double buffer holds, pointwise, either the target
value or the original vertex flag: each face loop only ever writes the
target value. -/
theorem propagate_buffers_or (faces : List (List Nat)) (hv hp : List Bool)
    (action : VisAction) :
    ∀ (n : Nat) (v : Nat),
      ((propagate_vertex_visibility faces ⟨hv, hv⟩ hp action n).1.front.getD v false
          = action_to_hide action ∨
       (propagate_vertex_visibility faces ⟨hv, hv⟩ hp action n).1.front.getD v false
          = hv.getD v false) ∧
      ((propagate_vertex_visibility faces ⟨hv, hv⟩ hp action n).1.back.getD v false
          = action_to_hide action ∨
       (propagate_vertex_visibility faces ⟨hv, hv⟩ hp action n).1.back.getD v false
          = hv.getD v false) := by
  intro n
  induction n with
  | zero =>
    intro v
    exact ⟨Or.inr rfl, Or.inr rfl⟩
  | succ n ih =>
    intro v
    rw [propagate_vertex_visibility_succ]
    dsimp only
    by_cases hpar : n % 2 = 0
    · rw [if_pos hpar, DualBuffer.write_buffer, if_pos hpar]
      refine ⟨(ih v).1, ?_⟩
      rcases propagate_iteration_value_or faces
          (propagate_vertex_visibility faces ⟨hv, hv⟩ hp action n).2 action
          ((propagate_vertex_visibility faces ⟨hv, hv⟩ hp action n).1.read_buffer n)
          ((propagate_vertex_visibility faces ⟨hv, hv⟩ hp action n).1.back)
          v with h | h
      · exact Or.inl h
      · exact ((ih v).2).imp (fun h2 => h.trans h2) (fun h2 => h.trans h2)
    · rw [if_neg hpar, DualBuffer.write_buffer, if_neg hpar]
      refine ⟨?_, (ih v).2⟩
      rcases propagate_iteration_value_or faces
          (propagate_vertex_visibility faces ⟨hv, hv⟩ hp action n).2 action
          ((propagate_vertex_visibility faces ⟨hv, hv⟩ hp action n).1.read_buffer n)
          ((propagate_vertex_visibility faces ⟨hv, hv⟩ hp action n).1.front)
          v with h | h
      · exact Or.inl h
      · exact ((ih v).1).imp (fun h2 => h.trans h2) (fun h2 => h.trans h2)

theorem grow_shrink_vertHidden_or (m : Mesh) (nodes : List PBVHNodeMesh)
    (action : VisAction) (iterations : Nat) (v : Nat) :
    (grow_shrink_visibility_mesh m nodes action iterations).mesh.vertHidden v
        = action_to_hide action ∨
    (grow_shrink_visibility_mesh m nodes action iterations).mesh.vertHidden v
        = m.vertHidden v := by
  unfold grow_shrink_visibility_mesh
  cases hv : m.hide_vert with
  | none => exact Or.inr rfl
  | some hvl =>
    dsimp only
    have hvh : m.vertHidden v = hvl.getD v false := by
      unfold Mesh.vertHidden
      rw [hv]
      rfl
    rw [hvh]
    cases iterations with
    | zero =>
      exact (propagate_buffers_or m.faces hvl m.hidePolySpan action 0 v).1
    | succ n =>
      show (DualBuffer.write_buffer _ n).getD v false = _ ∨
        (DualBuffer.write_buffer _ n).getD v false = _
      rw [DualBuffer.write_buffer]
      by_cases hpar : n % 2 = 0
      · rw [if_pos hpar]
        exact (propagate_buffers_or m.faces hvl m.hidePolySpan action (n + 1) v).2
      · rw [if_neg hpar]
        exact (propagate_buffers_or m.faces hvl m.hidePolySpan action (n + 1) v).1

/-- C3 (amended): the polygon-mesh grow action (`GROW` = `VisAction.Show`)
spreads visibility, so the hidden-vertex set after it is a subset of the
set before; the shrink action (`SHRINK` = `VisAction.Hide`) spreads
hiddenness, so the hidden-vertex set after it is a superset of the set
before - the opposite inclusions of the claim. -/
theorem claim_C3_grow_shrink_polarity (m : Mesh) (nodes : List PBVHNodeMesh)
    (iterations : Nat) (v : Nat) :
    ((grow_shrink_visibility_mesh m nodes VisAction.Show iterations).mesh.vertHidden v
        = true → m.vertHidden v = true) ∧
    (m.vertHidden v = true →
      (grow_shrink_visibility_mesh m nodes VisAction.Hide iterations).mesh.vertHidden v
        = true) := by
  constructor
  · intro h
    rcases grow_shrink_vertHidden_or m nodes VisAction.Show iterations v with hor | hor
    · rw [h] at hor
      exact absurd hor.symm Bool.false_ne_true
    · rw [← hor]
      exact h
  · intro h
    rcases grow_shrink_vertHidden_or m nodes VisAction.Hide iterations v with hor | hor
    · exact hor
    · rw [hor]
      exact h

/-- C3 counterexample: on the triangle mesh with vertex 0 hidden, one
iteration of the grow action (`VisAction.Show`) reveals vertex 0 - the
hidden set after grow is not a superset of the hidden set before, refuting
the claim's inclusion directions. -/
theorem claim_C3_counterexample :
    triMesh.vertHidden 0 = true ∧
    (grow_shrink_visibility_mesh triMesh [triNode]
      VisAction.Show 1).mesh.vertHidden 0 = false := by
  decide

/-- C3 witness: the amended superset direction applied on the triangle
fixture: vertex 0 is hidden before, so it is still hidden after one
shrink iteration. -/
theorem claim_C3_witness :
    (grow_shrink_visibility_mesh triMesh [triNode]
      VisAction.Hide 1).mesh.vertHidden 0 = true :=
  (claim_C3_grow_shrink_polarity triMesh [triNode] 1 0).2 (by decide)

theorem foldl_toggle_length :
    ∀ (js : List Nat) (l : List Bool),
      (js.foldl (fun hp f => hp.set f (!(hp.getD f false))) l).length = l.length := by
  intro js
  induction js with
  | nil => intro l; rfl
  | cons j js ih =>
    intro l
    rw [List.foldl_cons, ih, List.length_set]

theorem foldl_toggle_getD :
    ∀ (js : List Nat), js.Nodup → ∀ (l : List Bool) (f : Nat),
      (js.foldl (fun hp f => hp.set f (!(hp.getD f false))) l).getD f false
        = if f ∈ js ∧ f < l.length then !(l.getD f false) else l.getD f false := by
  intro js
  induction js with
  | nil =>
    intro _ l f
    simp
  | cons j js ih =>
    intro hnd l f
    rw [List.foldl_cons, ih (List.nodup_cons.mp hnd).2, List.length_set]
    by_cases hfj : f = j
    · have hmemf : f ∉ js := by
        rw [hfj]
        exact (List.nodup_cons.mp hnd).1
      rw [if_neg (fun hc => hmemf hc.1)]
      by_cases hlt : f < l.length
      · rw [hfj, getD_set_self _ _ _ _ (hfj ▸ hlt),
          if_pos ⟨List.mem_cons_self j js, hfj ▸ hlt⟩]
      · rw [List.set_eq_of_length_le (hfj ▸ Nat.le_of_not_lt hlt),
          if_neg (fun hc => hlt hc.2)]
    · rw [getD_set_ne _ _ _ (fun he => hfj he.symm)]
      by_cases hmem : f ∈ js ∧ f < l.length
      · rw [if_pos hmem, if_pos ⟨List.mem_cons_of_mem j hmem.1, hmem.2⟩]
      · rw [if_neg hmem, if_neg (fun hc =>
          hmem ⟨(List.mem_cons.mp hc.1).resolve_left hfj, hc.2⟩)]

theorem invert_hp_flatten (nodes : List PBVHNodeMesh) (init : List Bool) :
    nodes.foldl (fun hp node => node.faceIndices.foldl
        (fun hp f => hp.set f (!(hp.getD f false))) hp) init
      = ((nodes.map (fun node => node.faceIndices)).flatten).foldl
          (fun hp f => hp.set f (!(hp.getD f false))) init := by
  rw [List.foldl_flatten, List.foldl_map]

/-- C8: the polygon-mesh invert operation toggles every face's hidden
flag in place - when the PBVH nodes partition the face range, each face's
`hide_poly` value afterwards is the negation of its value before - and
the resulting mesh is exactly the face-driven flush
(`mesh_hide_face_flush`) of the mesh with the toggled face attribute, so
vertex and edge flags are re-derived from the toggled face flags
afterwards. -/
theorem claim_C8_invert_toggles_then_flushes (m : Mesh) (nodes : List PBVHNodeMesh)
    (hwf : Mesh.WF m)
    (hnd : ((nodes.map (fun node => node.faceIndices)).flatten).Nodup)
    (hcover : ∀ f, f < m.faces.length →
      f ∈ (nodes.map (fun node => node.faceIndices)).flatten) :
    (invert_visibility_mesh m nodes).mesh
        = mesh_hide_face_flush { m with
            hide_poly := some (m.hidePolySpan.map (fun b => !b)) } ∧
    (∀ f, f < m.faces.length →
      (invert_visibility_mesh m nodes).mesh.faceHidden f = !(m.faceHidden f)) := by
  have hlen : m.hidePolySpan.length = m.faces.length :=
    hidePolySpan_length m hwf.2.1
  have hp_eq : nodes.foldl (fun hp node => node.faceIndices.foldl
        (fun hp f => hp.set f (!(hp.getD f false))) hp) m.hidePolySpan
      = m.hidePolySpan.map (fun b => !b) := by
    rw [invert_hp_flatten]
    refine list_ext_getD _ _ false ?_ ?_
    · rw [foldl_toggle_length, List.length_map]
    · intro i hi
      rw [foldl_toggle_length] at hi
      rw [foldl_toggle_getD _ hnd, if_pos ⟨hcover i (hlen ▸ hi), hi⟩,
        getD_map_of_lt _ _ _ hi _ false]
  have hmesh : (invert_visibility_mesh m nodes).mesh
      = mesh_hide_face_flush { m with
          hide_poly := some (m.hidePolySpan.map (fun b => !b)) } := by
    unfold invert_visibility_mesh
    dsimp only
    rw [hp_eq]
  refine ⟨hmesh, fun f hf => ?_⟩
  rw [hmesh]
  show (List.map (fun b => !b) m.hidePolySpan).getD f false = !(m.faceHidden f)
  rw [getD_map_of_lt _ _ _ (hlen.symm ▸ hf) _ false, hidePolySpan_getD]

/-- C8 witness: the invert characterisation applied on the triforce
fixture: the centre face (index 3) is visible before and hidden after the
invert. -/
theorem claim_C8_witness :
    Mesh.WF triforceMesh ∧
    (invert_visibility_mesh triforceMesh [triforceNode]).mesh.faceHidden 3
      = !(triforceMesh.faceHidden 3) :=
  ⟨by decide,
   (claim_C8_invert_toggles_then_flushes triforceMesh [triforceNode] (by decide)
     (by decide) (by decide)).2 3 (by decide)⟩

theorem vert_hide_update_edge_proj (m : Mesh) (nodes : List PBVHNodeMesh)
    (calc_hide : List Nat → List Bool → List Bool) :
    ((node_update_fold false calc_hide (nodes.map (·.uniqueVerts))
        m.hideVertSpan).any_changed = true →
      (vert_hide_update m nodes calc_hide).mesh.hide_edge
        = some (flush_edge_changes m.edges
            (node_update_fold false calc_hide (nodes.map (·.uniqueVerts))
              m.hideVertSpan).store)) ∧
    (¬ (node_update_fold false calc_hide (nodes.map (·.uniqueVerts))
        m.hideVertSpan).any_changed = true →
      (vert_hide_update m nodes calc_hide).mesh.hide_edge = m.hide_edge) := by
  unfold vert_hide_update
  dsimp only
  constructor
  · intro h
    rw [if_pos h]
  · intro h
    rw [if_neg h]

/-- `vert_hide_update` re-establishes the OR-consistency invariant: when
the PBVH nodes cover the face range and the invariant held before the
call, afterwards every face's hidden flag is the OR of its corner
vertices' hidden flags and every edge's hidden flag is the OR of its
endpoints' hidden flags. -/
theorem vert_hide_update_flush_invariant (m : Mesh) (nodes : List PBVHNodeMesh)
    (calc_hide : List Nat → List Bool → List Bool)
    (hwf : Mesh.WF m) (hn : nodesWFMesh m nodes) (hcov : nodesCoverFaces m nodes)
    (hlen : ∀ verts (olds : List Bool), olds.length = verts.length →
      (calc_hide verts olds).length = olds.length)
    (hface0 : ∀ f, f < m.faces.length →
      m.faceHidden f = (m.faces.getD f []).any (fun v => m.vertHidden v))
    (hedge0 : ∀ e, e < m.edges.length →
      m.edgeHidden e = (m.vertHidden (m.edges.getD e (0, 0)).1
        || m.vertHidden (m.edges.getD e (0, 0)).2)) :
    (∀ f, f < m.faces.length →
      (vert_hide_update m nodes calc_hide).mesh.faceHidden f
        = (m.faces.getD f []).any (fun v =>
            (vert_hide_update m nodes calc_hide).mesh.vertHidden v)) ∧
    (∀ e, e < m.edges.length →
      (vert_hide_update m nodes calc_hide).mesh.edgeHidden e
        = ((vert_hide_update m nodes calc_hide).mesh.vertHidden
            (m.edges.getD e (0, 0)).1
          || (vert_hide_update m nodes calc_hide).mesh.vertHidden
            (m.edges.getD e (0, 0)).2)) := by
  by_cases hch : (node_update_fold false calc_hide (nodes.map (·.uniqueVerts))
      m.hideVertSpan).any_changed = true
  · obtain ⟨hpushP, hstore⟩ := vert_hide_update_proj m nodes calc_hide
    obtain ⟨hdirty, hpoly⟩ := (vert_hide_update_dirty_proj m nodes calc_hide).1 hch
    have hedgeP := (vert_hide_update_edge_proj m nodes calc_hide).1 hch
    have hvert : ∀ v, (vert_hide_update m nodes calc_hide).mesh.vertHidden v
        = (node_update_fold false calc_hide (nodes.map (·.uniqueVerts))
            m.hideVertSpan).store.getD v false := by
      intro v
      unfold Mesh.vertHidden
      rw [hstore]
      rfl
    refine ⟨fun f hf => ?_, fun e he => ?_⟩
    · rcases hcov f hf with ⟨node, hnode, hfmem⟩
      have hfaceH : (vert_hide_update m nodes calc_hide).mesh.faceHidden f
          = (flush_face_changes_node m.faces nodes
              (node_update_fold false calc_hide (nodes.map (·.uniqueVerts))
                m.hideVertSpan).store m.hidePolySpan).store.getD f false := by
        unfold Mesh.faceHidden
        rw [hpoly]
        rfl
      rw [hfaceH, flush_face_changes_node_values m nodes _ hwf hn node hnode f hfmem]
      unfold face_hide_from_vert
      simp only [hvert]
    · have hedgeH : (vert_hide_update m nodes calc_hide).mesh.edgeHidden e
          = (flush_edge_changes m.edges
              (node_update_fold false calc_hide (nodes.map (·.uniqueVerts))
                m.hideVertSpan).store).getD e false := by
        unfold Mesh.edgeHidden
        rw [hedgeP]
        rfl
      rw [hedgeH]
      unfold flush_edge_changes
      rw [getD_map_of_lt _ m.edges e he _ ((0 : Nat), (0 : Nat))]
      simp only [hvert]
  · obtain ⟨hndV, hbV⟩ := nodesWFMesh_vert_transfer m nodes hwf hn
    have hspec := node_update_fold_spec false calc_hide (nodes.map (·.uniqueVerts))
      m.hideVertSpan hlen hndV hbV hn.2.2.1
    have hisEmpty : (pushedSpec false calc_hide m.hideVertSpan
        (nodes.map (·.uniqueVerts)) 0).isEmpty = true := by
      by_contra hie
      refine hch ?_
      rw [hspec.2.2.2.2, Bool.eq_false_iff.mpr hie]
      rfl
    have hempty : pushedSpec false calc_hide m.hideVertSpan
        (nodes.map (·.uniqueVerts)) 0 = [] := List.isEmpty_iff.mp hisEmpty
    have hnochange : ∀ n ∈ nodes.map (·.uniqueVerts),
        calc_hide n (gatherIdx false m.hideVertSpan n)
          = gatherIdx false m.hideVertSpan n := by
      intro n hnmem
      rcases List.mem_iff_getElem.mp hnmem with ⟨j, hj, hje⟩
      by_contra hchn
      have hjmem : j ∈ pushedSpec false calc_hide m.hideVertSpan
          (nodes.map (·.uniqueVerts)) 0 := by
        apply (mem_pushedSpec false calc_hide m.hideVertSpan _ 0 j).mpr
        refine ⟨j, hj, by omega, ?_⟩
        have hgd : (nodes.map (·.uniqueVerts)).getD j [] = n := by
          rw [List.getD_eq_getElem?_getD, List.getElem?_eq_getElem hj]
          exact hje
        rw [hgd]
        exact hchn
      rw [hempty] at hjmem
      exact absurd hjmem (List.not_mem_nil j)
    have hno : ∀ node ∈ nodes, calc_hide node.uniqueVerts
        (gatherIdx false m.hideVertSpan node.uniqueVerts)
        = gatherIdx false m.hideVertSpan node.uniqueVerts := by
      intro node hnode
      exact hnochange node.uniqueVerts (List.mem_map.mpr ⟨node, hnode, rfl⟩)
    have hR := vert_hide_update_noop m nodes calc_hide hno
    have hvH : ∀ v, Mesh.vertHidden { m with hide_vert := some m.hideVertSpan } v
        = m.vertHidden v := by
      intro v
      show m.hideVertSpan.getD v false = _
      exact hideVertSpan_getD m v
    refine ⟨fun f hf => ?_, fun e he => ?_⟩
    · rw [hR]
      show m.faceHidden f = (m.faces.getD f []).any (fun v =>
        Mesh.vertHidden { m with hide_vert := some m.hideVertSpan } v)
      simp only [hvH]
      exact hface0 f hf
    · rw [hR]
      show m.edgeHidden e
        = (Mesh.vertHidden { m with hide_vert := some m.hideVertSpan }
            (m.edges.getD e (0, 0)).1
          || Mesh.vertHidden { m with hide_vert := some m.hideVertSpan }
            (m.edges.getD e (0, 0)).2)
      simp only [hvH]
      exact hedge0 e he

/-- The show-all operation re-establishes the OR-consistency invariant
unconditionally: it removes all three hidden attributes, so every flag
reads `false`. -/
theorem mesh_show_all_flush_invariant (m : Mesh) (nodes : List PBVHNodeMesh) :
    (∀ f, (mesh_show_all m nodes).mesh.faceHidden f
      = (m.faces.getD f []).any (fun v => (mesh_show_all m nodes).mesh.vertHidden v)) ∧
    (∀ e, (mesh_show_all m nodes).mesh.edgeHidden e
      = ((mesh_show_all m nodes).mesh.vertHidden (m.edges.getD e (0, 0)).1
        || (mesh_show_all m nodes).mesh.vertHidden (m.edges.getD e (0, 0)).2)) := by
  have hvH : ∀ v, (mesh_show_all m nodes).mesh.vertHidden v = false := by
    intro v
    show (([] : List Bool)).getD v false = false
    exact List.getD_eq_default _ _ (Nat.zero_le v)
  have hfH : ∀ f, (mesh_show_all m nodes).mesh.faceHidden f = false := by
    intro f
    show (([] : List Bool)).getD f false = false
    exact List.getD_eq_default _ _ (Nat.zero_le f)
  have heH : ∀ e, (mesh_show_all m nodes).mesh.edgeHidden e = false := by
    intro e
    show (([] : List Bool)).getD e false = false
    exact List.getD_eq_default _ _ (Nat.zero_le e)
  refine ⟨fun f => ?_, fun e => ?_⟩
  · rw [hfH f]
    simp only [hvH]
    simp
  · rw [heH e]
    simp only [hvH]
    simp

/-- The face attribute produced by a positive-iteration propagation run
is the global face flush of the buffer written in the last iteration. -/
theorem propagate_snd_flush (faces : List (List Nat)) (b : DualBuffer)
    (hp : List Bool) (action : VisAction) (n : Nat) :
    (propagate_vertex_visibility faces b hp action (n + 1)).2
      = flush_face_changes faces
          ((propagate_vertex_visibility faces b hp action (n + 1)).1.write_buffer n) := by
  rw [propagate_vertex_visibility_succ]
  dsimp only
  by_cases hpar : n % 2 = 0
  · rw [if_pos hpar, DualBuffer.write_buffer, if_pos hpar,
      DualBuffer.write_buffer, if_pos hpar]
  · rw [if_neg hpar, DualBuffer.write_buffer, if_neg hpar,
      DualBuffer.write_buffer, if_neg hpar]

/-- The grow/shrink operation re-establishes the OR-consistency
invariant: with at least one iteration the stored face and edge
attributes are the flushes of the final vertex buffer; with zero
iterations (or no vertex attribute) the vertex and face flags are
untouched and the invariant carries over from the input. -/
theorem grow_shrink_flush_invariant (m : Mesh) (nodes : List PBVHNodeMesh)
    (action : VisAction) (iterations : Nat)
    (hface0 : ∀ f, f < m.faces.length →
      m.faceHidden f = (m.faces.getD f []).any (fun v => m.vertHidden v))
    (hedge0 : ∀ e, e < m.edges.length →
      m.edgeHidden e = (m.vertHidden (m.edges.getD e (0, 0)).1
        || m.vertHidden (m.edges.getD e (0, 0)).2)) :
    (∀ f, f < m.faces.length →
      (grow_shrink_visibility_mesh m nodes action iterations).mesh.faceHidden f
        = (m.faces.getD f []).any (fun v =>
            (grow_shrink_visibility_mesh m nodes action iterations).mesh.vertHidden v)) ∧
    (∀ e, e < m.edges.length →
      (grow_shrink_visibility_mesh m nodes action iterations).mesh.edgeHidden e
        = ((grow_shrink_visibility_mesh m nodes action iterations).mesh.vertHidden
            (m.edges.getD e (0, 0)).1
          || (grow_shrink_visibility_mesh m nodes action iterations).mesh.vertHidden
            (m.edges.getD e (0, 0)).2)) := by
  cases hveq : m.hide_vert with
  | none =>
    have hmesh : (grow_shrink_visibility_mesh m nodes action iterations).mesh = m := by
      unfold grow_shrink_visibility_mesh
      rw [hveq]
    rw [hmesh]
    exact ⟨hface0, hedge0⟩
  | some hv =>
    have hmv : ∀ v, m.vertHidden v = hv.getD v false := by
      intro v
      unfold Mesh.vertHidden
      rw [hveq]
      rfl
    cases iterations with
    | zero =>
      have hmesh : (grow_shrink_visibility_mesh m nodes action 0).mesh
          = { m with
              hide_vert := some hv,
              hide_edge := some (flush_edge_changes m.edges hv) } := by
        unfold grow_shrink_visibility_mesh
        rw [hveq]
        rfl
      have hvertH : ∀ v, (grow_shrink_visibility_mesh m nodes action 0).mesh.vertHidden v
          = m.vertHidden v := by
        intro v
        unfold Mesh.vertHidden
        rw [hmesh, hveq]
      have hfaceH : ∀ f, (grow_shrink_visibility_mesh m nodes action 0).mesh.faceHidden f
          = m.faceHidden f := by
        intro f
        unfold Mesh.faceHidden
        rw [hmesh]
      have hedgeH : ∀ e, (grow_shrink_visibility_mesh m nodes action 0).mesh.edgeHidden e
          = (flush_edge_changes m.edges hv).getD e false := by
        intro e
        unfold Mesh.edgeHidden
        rw [hmesh]
        rfl
      refine ⟨fun f hf => ?_, fun e he => ?_⟩
      · rw [hfaceH f]
        simp only [hvertH]
        exact hface0 f hf
      · rw [hedgeH e]
        simp only [hvertH]
        simp only [hmv]
        unfold flush_edge_changes
        rw [getD_map_of_lt _ m.edges e he _ ((0 : Nat), (0 : Nat))]
    | succ n =>
      have hmesh : (grow_shrink_visibility_mesh m nodes action (n + 1)).mesh
          = { m with
              hide_vert := some ((propagate_vertex_visibility m.faces ⟨hv, hv⟩
                m.hidePolySpan action (n + 1)).1.write_buffer n),
              hide_poly := some (propagate_vertex_visibility m.faces ⟨hv, hv⟩
                m.hidePolySpan action (n + 1)).2,
              hide_edge := some (flush_edge_changes m.edges
                ((propagate_vertex_visibility m.faces ⟨hv, hv⟩
                  m.hidePolySpan action (n + 1)).1.write_buffer n)) } := by
        unfold grow_shrink_visibility_mesh
        rw [hveq]
        rfl
      have hvertH : ∀ v,
          (grow_shrink_visibility_mesh m nodes action (n + 1)).mesh.vertHidden v
          = ((propagate_vertex_visibility m.faces ⟨hv, hv⟩
              m.hidePolySpan action (n + 1)).1.write_buffer n).getD v false := by
        intro v
        unfold Mesh.vertHidden
        rw [hmesh]
        rfl
      have hfaceH : ∀ f,
          (grow_shrink_visibility_mesh m nodes action (n + 1)).mesh.faceHidden f
          = (propagate_vertex_visibility m.faces ⟨hv, hv⟩
              m.hidePolySpan action (n + 1)).2.getD f false := by
        intro f
        unfold Mesh.faceHidden
        rw [hmesh]
        rfl
      have hedgeH : ∀ e,
          (grow_shrink_visibility_mesh m nodes action (n + 1)).mesh.edgeHidden e
          = (flush_edge_changes m.edges
              ((propagate_vertex_visibility m.faces ⟨hv, hv⟩
                m.hidePolySpan action (n + 1)).1.write_buffer n)).getD e false := by
        intro e
        unfold Mesh.edgeHidden
        rw [hmesh]
        rfl
      refine ⟨fun f hf => ?_, fun e he => ?_⟩
      · rw [hfaceH f, propagate_snd_flush]
        unfold flush_face_changes
        rw [getD_map_of_lt _ m.faces f hf _ ([] : List Nat)]
        unfold face_hide_from_vert
        simp only [hvertH]
      · rw [hedgeH e]
        simp only [hvertH]
        unfold flush_edge_changes
        rw [getD_map_of_lt _ m.edges e he _ ((0 : Nat), (0 : Nat))]

/-- C5 (amended): all the vertex-driven polygon-mesh operations
re-establish the OR-consistency invariant - the predicate-driven, masked
and hide-all updates (`vert_hide_update`, when the PBVH nodes cover the
face range and the invariant held before), the show-all operation
(unconditionally), and the grow/shrink operation (when the invariant held
before) - so that afterwards every face's hidden flag is the OR of its
corner vertices' hidden flags and every edge's hidden flag is the OR of
its endpoints' hidden flags.  The face-driven invert operation is
exempted: it re-derives vertices from faces with the all-incident-faces
rule, which can leave a hidden face with all corner vertices visible -
see the counterexample. -/
theorem claim_C5_core_ops_invariant :
    (∀ (m : Mesh) (nodes : List PBVHNodeMesh)
        (calc_hide : List Nat → List Bool → List Bool),
      Mesh.WF m → nodesWFMesh m nodes → nodesCoverFaces m nodes →
      (∀ verts (olds : List Bool), olds.length = verts.length →
        (calc_hide verts olds).length = olds.length) →
      (∀ f, f < m.faces.length →
        m.faceHidden f = (m.faces.getD f []).any (fun v => m.vertHidden v)) →
      (∀ e, e < m.edges.length →
        m.edgeHidden e = (m.vertHidden (m.edges.getD e (0, 0)).1
          || m.vertHidden (m.edges.getD e (0, 0)).2)) →
      ((∀ f, f < m.faces.length →
        (vert_hide_update m nodes calc_hide).mesh.faceHidden f
          = (m.faces.getD f []).any (fun v =>
              (vert_hide_update m nodes calc_hide).mesh.vertHidden v)) ∧
      (∀ e, e < m.edges.length →
        (vert_hide_update m nodes calc_hide).mesh.edgeHidden e
          = ((vert_hide_update m nodes calc_hide).mesh.vertHidden
              (m.edges.getD e (0, 0)).1
            || (vert_hide_update m nodes calc_hide).mesh.vertHidden
              (m.edges.getD e (0, 0)).2)))) ∧
    (∀ (m : Mesh) (nodes : List PBVHNodeMesh),
      (∀ f, (mesh_show_all m nodes).mesh.faceHidden f
        = (m.faces.getD f []).any (fun v =>
            (mesh_show_all m nodes).mesh.vertHidden v)) ∧
      (∀ e, (mesh_show_all m nodes).mesh.edgeHidden e
        = ((mesh_show_all m nodes).mesh.vertHidden (m.edges.getD e (0, 0)).1
          || (mesh_show_all m nodes).mesh.vertHidden (m.edges.getD e (0, 0)).2))) ∧
    (∀ (m : Mesh) (nodes : List PBVHNodeMesh) (action : VisAction) (iterations : Nat),
      (∀ f, f < m.faces.length →
        m.faceHidden f = (m.faces.getD f []).any (fun v => m.vertHidden v)) →
      (∀ e, e < m.edges.length →
        m.edgeHidden e = (m.vertHidden (m.edges.getD e (0, 0)).1
          || m.vertHidden (m.edges.getD e (0, 0)).2)) →
      ((∀ f, f < m.faces.length →
        (grow_shrink_visibility_mesh m nodes action iterations).mesh.faceHidden f
          = (m.faces.getD f []).any (fun v =>
              (grow_shrink_visibility_mesh m nodes action iterations).mesh.vertHidden v)) ∧
      (∀ e, e < m.edges.length →
        (grow_shrink_visibility_mesh m nodes action iterations).mesh.edgeHidden e
          = ((grow_shrink_visibility_mesh m nodes action iterations).mesh.vertHidden
              (m.edges.getD e (0, 0)).1
            || (grow_shrink_visibility_mesh m nodes action iterations).mesh.vertHidden
              (m.edges.getD e (0, 0)).2)))) := by
  refine ⟨?_, ?_, ?_⟩
  · intro m nodes calc_hide hwf hn hcov hlen hface0 hedge0
    exact vert_hide_update_flush_invariant m nodes calc_hide hwf hn hcov hlen
      hface0 hedge0
  · intro m nodes
    exact mesh_show_all_flush_invariant m nodes
  · intro m nodes action iterations hface0 hedge0
    exact grow_shrink_flush_invariant m nodes action iterations hface0 hedge0

/-- C5 counterexample: the invert operation is a core visibility
operation, the triforce fixture satisfies the OR-consistency invariant
beforehand, yet after the invert the centre face (index 3) is hidden
while all three of its corner vertices are visible: the face flag is not
the OR of its corner vertices' flags. -/
theorem claim_C5_counterexample :
    (∀ f, f < triforceMesh.faces.length →
      triforceMesh.faceHidden f
        = (triforceMesh.faces.getD f []).any (fun v => triforceMesh.vertHidden v)) ∧
    (∀ e, e < triforceMesh.edges.length →
      triforceMesh.edgeHidden e
        = (triforceMesh.vertHidden (triforceMesh.edges.getD e (0, 0)).1
          || triforceMesh.vertHidden (triforceMesh.edges.getD e (0, 0)).2)) ∧
    ¬((invert_visibility_mesh triforceMesh [triforceNode]).mesh.faceHidden 3
        = (triforceMesh.faces.getD 3 []).any (fun v =>
            (invert_visibility_mesh triforceMesh [triforceNode]).mesh.vertHidden v)) := by
  refine ⟨by decide, by decide, by decide⟩

/-- C5 witness: the amended invariant applied on the triangle fixture
with the fill-`true` recompute (a hide-all): afterwards face 0's flag is
the OR of its corner vertices' flags. -/
theorem claim_C5_witness :
    Mesh.WF triMesh ∧ nodesWFMesh triMesh [triNode] ∧
    nodesCoverFaces triMesh [triNode] ∧
    (vert_hide_update triMesh [triNode]
        (fun _ olds => olds.map (fun _ => true))).mesh.faceHidden 0
      = (triMesh.faces.getD 0 []).any (fun v =>
          (vert_hide_update triMesh [triNode]
            (fun _ olds => olds.map (fun _ => true))).mesh.vertHidden v) :=
  ⟨by decide, by decide, by decide,
   (claim_C5_core_ops_invariant.1 triMesh [triNode]
      (fun _ olds => olds.map (fun _ => true)) (by decide) (by decide) (by decide)
      (fun verts olds _ => List.length_map olds _)
      (by decide) (by decide)).1 0 (by decide)⟩

end BlenderHide
